import Mathlib

/-!
Verification of the curseofrust game core against its natural-language
specification.  The definitions below are a shallow embedding of the Rust
sources (`src/lib.rs`, `src/grid.rs`, `src/king.rs`, `src/state.rs`,
`msg/src/lib.rs`, `msg/src/server.rs`, `msg/src/client.rs`): machine
integers are modelled by `Nat`/`Int` (the code never exercises wrap-around
on the paths studied here, except where noted), in-place mutation becomes
explicit state passing, and the process-wide PRNG becomes oracle
parameters indexed by the loop that draws from it.  `f32` computations of
the form `x as i32` / comparison with a fresh random sample are modelled
over `ℚ` with truncation, which is exact for the integer-valued inputs the
code feeds them.
-/

namespace CurseOfRust

/-- `MAX_PLAYERS` from `src/lib.rs`. -/
def MAX_PLAYERS : ℕ := 8

/-- `MAX_POPULATION` from `src/lib.rs`. -/
def MAX_POPULATION : ℕ := 499

/-- `MAX_WIDTH` from `src/lib.rs`. -/
def MAX_WIDTH : ℕ := 40

/-- `MAX_HEIGHT` from `src/lib.rs`. -/
def MAX_HEIGHT : ℕ := 29

/-- `FLAG_POWER` from `src/grid.rs`. -/
def FLAG_POWER : ℤ := 8

/-- `Player::NEUTRAL`; player ids (`Player` in `src/lib.rs`) are plain
naturals here, id 0 is neutral. -/
def NEUTRAL : ℕ := 0

/-- A position (`Pos` in `src/grid.rs`). -/
abbrev Pos := ℤ × ℤ

/-- `Pos::DIRS`, the six hex directions, in source order. -/
def DIRS : List Pos := [(-1, 0), (1, 0), (0, -1), (0, 1), (1, -1), (-1, 1)]

/-- `HabitLand` from `src/grid.rs`. -/
inductive HabitLand : Type
  | grassland
  | village
  | town
  | fortress
  deriving DecidableEq, Repr

/-- `king::PRICE_VILLAGE`. -/
def PRICE_VILLAGE : ℕ := 160

/-- `king::PRICE_TOWN`. -/
def PRICE_TOWN : ℕ := 240

/-- `king::PRICE_FORTRESS`. -/
def PRICE_FORTRESS : ℕ := 320

/-- `HabitLand::price` from `src/grid.rs`. -/
def HabitLand.price : HabitLand → ℕ
  | .grassland => 0
  | .village => PRICE_VILLAGE
  | .town => PRICE_TOWN
  | .fortress => PRICE_FORTRESS

/-- `HabitLand::upgrade` from `src/grid.rs`: the upgraded land together
with its price, or `none` for a fortress. -/
def HabitLand.upgradeL : HabitLand → Option (HabitLand × ℕ)
  | .grassland => some (.village, HabitLand.price .village)
  | .village => some (.town, HabitLand.price .town)
  | .town => some (.fortress, HabitLand.price .fortress)
  | .fortress => none

/-- `HabitLand::degrade` from `src/grid.rs`: the degraded land, or `none`
for grassland. -/
def HabitLand.degradeL : HabitLand → Option HabitLand
  | .grassland => none
  | .village => some .grassland
  | .town => some .village
  | .fortress => some .town

/-- `HabitLand::growth` from `src/grid.rs` (`f32` constants, exact in ℚ). -/
def HabitLand.growth : HabitLand → ℚ
  | .village => 11 / 10
  | .town => 12 / 10
  | .fortress => 13 / 10
  | .grassland => 0

/-- Per-tile population array `units: [u16; MAX_PLAYERS]`, as a function
from player index; only indices `0..7` are ever read. -/
abbrev Units := ℕ → ℕ

/-- The all-zero units array. -/
def zeroUnits : Units := fun _ => 0

/-- `Tile` from `src/grid.rs`. -/
inductive Tile : Type
  | void
  | mountain
  | mine (owner : ℕ)
  | habitable (land : HabitLand) (units : Units) (owner : ℕ)

/-- `Tile::owner` from `src/grid.rs` (`Void`/`Mountain` give the default,
neutral, player). -/
def Tile.owner : Tile → ℕ
  | .mine p => p
  | .habitable _ _ o => o
  | _ => NEUTRAL

/-- `Tile::set_owner` from `src/grid.rs`. -/
def Tile.setOwner : Tile → ℕ → Tile
  | .mine _, p => .mine p
  | .habitable l u _, p => .habitable l u p
  | t, _ => t

/-- `Tile::is_habitable` from `src/grid.rs`. -/
def Tile.isHabitable : Tile → Bool
  | .habitable _ _ _ => true
  | _ => false

/-- `Tile::units` from `src/grid.rs` (non-habitable tiles read as zeros). -/
def Tile.unitsOf : Tile → Units
  | .habitable _ u _ => u
  | _ => zeroUnits

/-- The sum `units[1..].iter().sum()` over the seven real players. -/
def sumUnits (u : Units) : ℕ := ((List.range 7).map fun k => u (k + 1)).sum

/-- `Grid` from `src/grid.rs`: a dense `tiles[x][y]` store with its
dimensions.  The `Vec<Vec<Tile>>` becomes a total function read only at
in-bounds indices. -/
structure Grid : Type where
  width : ℕ
  height : ℕ
  tiles : ℕ → ℕ → Tile

/-- `Grid::tile` from `src/grid.rs`: `tiles.get(x as usize)` on a negative
`i32` wraps to a huge `usize` and yields `None`, so the lookup succeeds
exactly on `0 ≤ x < width`, `0 ≤ y < height`. -/
def Grid.tileAt (g : Grid) (p : Pos) : Option Tile :=
  if 0 ≤ p.1 ∧ p.1 < (g.width : ℤ) ∧ 0 ≤ p.2 ∧ p.2 < (g.height : ℤ) then
    some (g.tiles p.1.toNat p.2.toNat)
  else none

/-- Writing one tile of the grid (the effect of mutation through
`Grid::tile_mut`); only ever used at in-bounds positions. -/
def Grid.setTile (g : Grid) (p : Pos) (t : Tile) : Grid :=
  { g with tiles := fun x y => if (x : ℤ) = p.1 ∧ (y : ℤ) = p.2 then t else g.tiles x y }

/-- `Country` from `src/king.rs`. -/
structure Country : Type where
  player : ℕ
  gold : ℕ
  deriving DecidableEq, Repr

/-- `Error` from `src/lib.rs` (plus the protocol-layer variants of the
`msg` crate). -/
inductive Err : Type
  | conflictDiffOutOfBound
  | posOutOfBound (pos : Pos)
  | notOwner (operator : ℕ) (owner : ℕ) (tile : Pos)
  | tileNotHabitable (pos : Pos)
  | upgradeTopLevelBuilding
  | degradeGrassLand
  | insufficientGold (required : ℕ) (owning : ℕ)
  | playerNotFound (player : ℕ)
  | deprecatedMsg (time : ℕ)
  deriving DecidableEq, Repr

/-- Truncation toward zero, the semantics of `expr as i32` on an `f32`
value (exact for the rational values arising here). -/
def truncQ (x : ℚ) : ℤ := if 0 ≤ x then ⌊x⌋ else ⌈x⌉

/-- The `rnd_round!` macro from `src/state.rs`: truncate, then add one
when a fresh uniform sample `r ∈ [0,1)` falls below the lost fractional
part. -/
def rndRound (x : ℚ) (r : ℚ) : ℤ :=
  truncQ x + if r < x - truncQ x then 1 else 0

/-!  ### `Grid::build` (src/king.rs)

`build` is embedded in mutation style: it returns the (grid, country)
pair after the call together with the error, if any; the Rust original
mutates its arguments only in the success branch. -/

/-- `Grid::build` from `src/king.rs`, checks in source order: position
lookup, then ownership, then habitability, then upgradability, then
gold. -/
def build (g : Grid) (c : Country) (pos : Pos) : (Grid × Country) × Option Err :=
  match g.tileAt pos with
  | none => ((g, c), some (.posOutOfBound pos))
  | some t =>
    if t.owner = c.player then
      match t with
      | .habitable land units owner =>
        match land.upgradeL with
        | none => ((g, c), some .upgradeTopLevelBuilding)
        | some lp =>
          if lp.2 ≤ c.gold then
            ((g.setTile pos (.habitable lp.1 units owner),
              { c with gold := c.gold - lp.2 }), none)
          else ((g, c), some (.insufficientGold lp.2 c.gold))
      | _ => ((g, c), some (.tileNotHabitable pos))
    else ((g, c), some (.notOwner c.player t.owner pos))

/-!  ### The final ownership pass of `State::simulate` (src/state.rs)

The last grid mutation of a tick: for every habitable tile, reset the
owner, cache the total in `units[0]`, and recompute the owner as the
first player whose population strictly exceeds the running best. -/

/-- One step of the ownership scan `if u > o_unit { owner = pr+1; o_unit = u }`. -/
def ownerStep (u : Units) (a : ℕ × ℕ) (k : ℕ) : ℕ × ℕ :=
  if a.2 < u k then (k, u k) else a

/-- The ownership scan over players `1..=n`, starting from
`(NEUTRAL, 0)`. -/
def ownerFoldN (u : Units) (n : ℕ) : ℕ × ℕ :=
  ((List.range n).map (· + 1)).foldl (ownerStep u) (0, 0)

/-- The full ownership scan over `units[1..]` (seven players), as in the
`Determine ownership again` loop of `State::simulate`. -/
def ownerFold (u : Units) : ℕ × ℕ := ownerFoldN u 7

/-- Effect of `units[0] = units[1..].iter().sum()`. -/
def finalPassUnits (u : Units) : Units :=
  fun p => if p = 0 then sumUnits u else u p

/-- The final ownership pass applied to one tile. -/
def finalPassTile : Tile → Tile
  | .habitable land u _ =>
      .habitable land (finalPassUnits u) (ownerFold (finalPassUnits u)).1
  | t => t

/-- The final ownership pass applied to the whole grid. -/
def finalPass (g : Grid) : Grid :=
  { g with tiles := fun x y => finalPassTile (g.tiles x y) }

lemma ownerFoldN_succ (u : Units) (n : ℕ) :
    ownerFoldN u (n + 1) = ownerStep u (ownerFoldN u n) (n + 1) := by
  simp [ownerFoldN, List.range_succ]

/-- Invariant of the ownership scan: the accumulator is neutral precisely
when every population seen so far is zero, and otherwise holds the first
player attaining the running maximum. -/
lemma ownerFoldN_inv (u : Units) (n : ℕ) :
    ((ownerFoldN u n).1 = 0 → (ownerFoldN u n).2 = 0 ∧
      ∀ k, 1 ≤ k → k ≤ n → u k = 0) ∧
    ((ownerFoldN u n).1 ≠ 0 →
      1 ≤ (ownerFoldN u n).1 ∧ (ownerFoldN u n).1 ≤ n ∧
      (ownerFoldN u n).2 = u (ownerFoldN u n).1 ∧ 0 < (ownerFoldN u n).2 ∧
      (∀ k, 1 ≤ k → k ≤ n → u k ≤ (ownerFoldN u n).2) ∧
      (∀ k, 1 ≤ k → k < (ownerFoldN u n).1 → u k < (ownerFoldN u n).2)) := by
  induction n with
  | zero =>
    have h0 : ownerFoldN u 0 = (0, 0) := by simp [ownerFoldN]
    rw [h0]
    exact ⟨fun _ => ⟨rfl, fun k hk1 hk2 => by omega⟩, fun h => absurd rfl h⟩
  | succ n ih =>
    rw [ownerFoldN_succ]
    rcases hacc : ownerFoldN u n with ⟨o, m⟩
    rw [hacc] at ih
    rcases ih with ⟨ih0, ihp⟩
    unfold ownerStep
    dsimp only at ih0 ihp ⊢
    have hub : ∀ k, 1 ≤ k → k ≤ n → u k ≤ m := by
      intro k hk1 hk2
      by_cases ho : o = 0
      · have h1 := (ih0 ho).1
        have h2 := (ih0 ho).2 k hk1 hk2
        omega
      · exact (ihp ho).2.2.2.2.1 k hk1 hk2
    by_cases hlt : m < u (n + 1)
    · rw [if_pos hlt]
      dsimp only
      refine ⟨fun h => absurd h (Nat.succ_ne_zero n), fun _ => ?_⟩
      refine ⟨by omega, le_refl _, rfl, by omega, ?_, ?_⟩
      · intro k hk1 hk2
        by_cases hk : k ≤ n
        · have := hub k hk1 hk
          omega
        · have hk2 : k = n + 1 := by omega
          subst hk2
          omega
      · intro k hk1 hk2
        have hk : k ≤ n := by omega
        have := hub k hk1 hk
        omega
    · rw [if_neg hlt]
      dsimp only
      constructor
      · intro ho
        rcases ih0 ho with ⟨hm, hz⟩
        refine ⟨hm, fun k hk1 hk2 => ?_⟩
        by_cases hk : k ≤ n
        · exact hz k hk1 hk
        · have hk2 : k = n + 1 := by omega
          subst hk2
          omega
      · intro ho
        rcases ihp ho with ⟨h1, h2, h3, h4, hle, hstr⟩
        refine ⟨h1, by omega, h3, h4, fun k hk1 hk2 => ?_, hstr⟩
        by_cases hk : k ≤ n
        · exact hle k hk1 hk
        · have hk2 : k = n + 1 := by omega
          subst hk2
          omega

lemma sumUnits_finalPassUnits (u : Units) :
    sumUnits (finalPassUnits u) = sumUnits u := by
  simp [sumUnits, finalPassUnits]

/-- C2.  After the final ownership pass closing every `State::simulate`,
each habitable tile has `units[0]` equal to the sum of the seven real
populations, and its owner is the least player index attaining the
maximal population, or NEUTRAL when all populations are zero. -/
theorem simulate_final_invariants (g : Grid) (pos : Pos) (land : HabitLand)
    (u : Units) (o : ℕ)
    (h : (finalPass g).tileAt pos = some (.habitable land u o)) :
    u 0 = sumUnits u ∧
    ((o = 0 ∧ ∀ p, 1 ≤ p → p ≤ 7 → u p = 0) ∨
      (1 ≤ o ∧ o ≤ 7 ∧ 0 < u o ∧
        (∀ p, 1 ≤ p → p ≤ 7 → u p ≤ u o) ∧
        (∀ p, 1 ≤ p → p < o → u p < u o))) := by
  have hsome : finalPassTile (g.tiles pos.1.toNat pos.2.toNat) =
      Tile.habitable land u o := by
    unfold Grid.tileAt finalPass at h
    dsimp only at h
    split at h
    · exact Option.some.inj h
    · exact Option.noConfusion h
  have hx : ∃ u0, u = finalPassUnits u0 ∧ o = (ownerFold (finalPassUnits u0)).1 := by
    rcases ht : g.tiles pos.1.toNat pos.2.toNat with _ | _ | p | ⟨land0, u0, o0⟩
    · rw [ht] at hsome
      exact Tile.noConfusion hsome
    · rw [ht] at hsome
      exact Tile.noConfusion hsome
    · rw [ht] at hsome
      exact Tile.noConfusion hsome
    · rw [ht] at hsome
      have hsome2 : Tile.habitable land0 (finalPassUnits u0)
          (ownerFold (finalPassUnits u0)).1 = Tile.habitable land u o := hsome
      injection hsome2 with hl hu ho
      exact ⟨u0, hu.symm, ho.symm⟩
  rcases hx with ⟨u0, hu, ho⟩
  have ho2 : o = (ownerFoldN (finalPassUnits u0) 7).1 := ho
  clear ho
  subst hu
  constructor
  · show finalPassUnits u0 0 = _
    rw [sumUnits_finalPassUnits]
    simp [finalPassUnits]
  · have hinv := ownerFoldN_inv (finalPassUnits u0) 7
    rcases hinv with ⟨inv0, invp⟩
    by_cases hz : (ownerFoldN (finalPassUnits u0) 7).1 = 0
    · left
      rw [ho2]
      exact ⟨hz, (inv0 hz).2⟩
    · right
      rcases invp hz with ⟨h1, h2, h3, h4, hle, hstr⟩
      rw [ho2]
      refine ⟨h1, h2, by omega, fun p hp1 hp2 => ?_, fun p hp1 hp2 => ?_⟩
      · have := hle p hp1 hp2
        omega
      · have := hstr p hp1 hp2
        omega

/-- Units of the C2 witness tile: stale `units[0] = 0`, players 2 and 3
tied at 7. -/
def wUnitsC2 : Units := fun p => if p = 2 then 7 else if p = 3 then 7 else 0

/-- Grid of the C2 witness: a 1×1 grid with one village and a stale owner. -/
def wGridC2 : Grid := ⟨1, 1, fun _ _ => .habitable .village wUnitsC2 5⟩

/-- Witness for C2 at a concrete grid: the final pass restores the cache
and resolves the 2–3 population tie to the lower player 2. -/
theorem simulate_final_invariants_witness :
    ((finalPassUnits wUnitsC2) 0 = sumUnits (finalPassUnits wUnitsC2) ∧
      (((ownerFold (finalPassUnits wUnitsC2)).1 = 0 ∧
          ∀ p, 1 ≤ p → p ≤ 7 → (finalPassUnits wUnitsC2) p = 0) ∨
        (1 ≤ (ownerFold (finalPassUnits wUnitsC2)).1 ∧
          (ownerFold (finalPassUnits wUnitsC2)).1 ≤ 7 ∧
          0 < (finalPassUnits wUnitsC2) (ownerFold (finalPassUnits wUnitsC2)).1 ∧
          (∀ p, 1 ≤ p → p ≤ 7 → (finalPassUnits wUnitsC2) p ≤
            (finalPassUnits wUnitsC2) (ownerFold (finalPassUnits wUnitsC2)).1) ∧
          (∀ p, 1 ≤ p → p < (ownerFold (finalPassUnits wUnitsC2)).1 →
            (finalPassUnits wUnitsC2) p <
              (finalPassUnits wUnitsC2) (ownerFold (finalPassUnits wUnitsC2)).1)))) ∧
    (ownerFold (finalPassUnits wUnitsC2)).1 = 2 := by
  have hmem : (finalPass wGridC2).tileAt (0, 0) =
      some (.habitable .village (finalPassUnits wUnitsC2)
        (ownerFold (finalPassUnits wUnitsC2)).1) := rfl
  exact ⟨simulate_final_invariants wGridC2 (0, 0) .village _ _ hmem, by decide⟩

/-- C4.  `Grid::build` succeeds exactly on an in-bounds habitable tile of
the requesting country at a non-fortress level with enough gold; success
upgrades the land one step and charges exactly the next level price
(V 160, T 240, F 320); any failure leaves grid and gold unchanged. -/
theorem build_correct (g : Grid) (c : Country) (pos : Pos) :
    ((build g c pos).2 = none ↔
      ∃ land units lp, g.tileAt pos = some (.habitable land units c.player) ∧
        land.upgradeL = some lp ∧ lp.2 ≤ c.gold)
    ∧ (∀ land units lp, g.tileAt pos = some (.habitable land units c.player) →
        land.upgradeL = some lp → lp.2 ≤ c.gold →
        build g c pos =
          ((g.setTile pos (.habitable lp.1 units c.player),
            ⟨c.player, c.gold - lp.2⟩), none) ∧ c.gold - lp.2 + lp.2 = c.gold)
    ∧ (∀ e, (build g c pos).2 = some e → (build g c pos).1 = (g, c))
    ∧ HabitLand.upgradeL .grassland = some (.village, 160)
    ∧ HabitLand.upgradeL .village = some (.town, 240)
    ∧ HabitLand.upgradeL .town = some (.fortress, 320)
    ∧ HabitLand.upgradeL .fortress = none := by
  have hsucc : ∀ land units lp, g.tileAt pos = some (.habitable land units c.player) →
      land.upgradeL = some lp → lp.2 ≤ c.gold →
      build g c pos =
        ((g.setTile pos (.habitable lp.1 units c.player),
          ⟨c.player, c.gold - lp.2⟩), none) := by
    intro land units lp ht hup hgold
    unfold build
    rw [ht]
    dsimp only [Tile.owner]
    rw [if_pos rfl]
    rw [hup]
    dsimp only
    rw [if_pos hgold]
  refine ⟨?_, ?_, ?_, rfl, rfl, rfl, rfl⟩
  · constructor
    · intro hok
      unfold build at hok
      split at hok
      · exact absurd hok (by simp)
      · rename_i t ht
        split at hok
        · rename_i howner
          rcases t with _ | _ | p | ⟨land, units, owner⟩
          · exact absurd hok (by simp)
          · exact absurd hok (by simp)
          · exact absurd hok (by simp)
          · dsimp only at hok
            split at hok
            · exact absurd hok (by simp)
            · rename_i lp hup
              split at hok
              · rename_i hgold
                have howner2 : owner = c.player := howner
                rw [howner2] at ht
                exact ⟨land, units, lp, ht, hup, hgold⟩
              · exact absurd hok (by simp)
        · exact absurd hok (by simp)
    · rintro ⟨land, units, lp, ht, hup, hgold⟩
      rw [hsucc land units lp ht hup hgold]
  · intro land units lp ht hup hgold
    exact ⟨hsucc land units lp ht hup hgold, by omega⟩
  · intro e
    unfold build
    split
    · intro _
      rfl
    · split
      · split <;> try (intro _; rfl)
        split
        · intro _
          rfl
        · split
          · intro h
            exact absurd h (by simp)
          · intro _
            rfl
      · intro _
        rfl

/-- Witness for C4: a successful build on a 1×1 village grid with exactly
240 gold reaches a town and zero gold, and an insufficient-gold failure
changes nothing. -/
theorem build_correct_witness :
    build ⟨1, 1, fun _ _ => .habitable .village zeroUnits 1⟩ ⟨1, 240⟩ (0, 0) =
      ((Grid.setTile ⟨1, 1, fun _ _ => .habitable .village zeroUnits 1⟩ (0, 0)
          (.habitable .town zeroUnits 1), ⟨1, 0⟩), none) ∧
    (build ⟨1, 1, fun _ _ => .habitable .village zeroUnits 1⟩ ⟨1, 239⟩ (0, 0)).1 =
      (⟨1, 1, fun _ _ => .habitable .village zeroUnits 1⟩, ⟨1, 239⟩) := by
  constructor
  · exact ((build_correct ⟨1, 1, fun _ _ => .habitable .village zeroUnits 1⟩ ⟨1, 240⟩
      (0, 0)).2.1 .village zeroUnits (.town, 240) (by rfl) rfl (by norm_num)).1
  · exact (build_correct ⟨1, 1, fun _ _ => .habitable .village zeroUnits 1⟩ ⟨1, 239⟩
      (0, 0)).2.2.1 (.insufficientGold 240 239) (by rfl)

/-!  ### Flag grids, countries and the game state (src/grid.rs, src/state.rs)  -/

/-- `FlagGrid` from `src/grid.rs`. -/
structure FlagGrid : Type where
  width : ℕ
  height : ℕ
  flags : ℕ → ℕ → Bool
  call : ℕ → ℕ → ℤ

/-- `FlagGrid::is_flagged`: bounds-checked read defaulting to `false`. -/
def FlagGrid.isFlagged (fg : FlagGrid) (x y : ℕ) : Bool :=
  if x < fg.width ∧ y < fg.height then fg.flags x y else false

/-- The fields of `State` (src/state.rs) read or written by the message
layer; the remaining fields (kings, timeline, speeds, difficulty, seed)
are never touched by the functions modelled here. -/
structure State : Type where
  grid : Grid
  fgs : ℕ → FlagGrid
  countries : ℕ → Country
  time : ℕ
  controlled : ℕ

/-!  ### The wire protocol (msg/src/lib.rs, msg/src/server.rs, msg/src/client.rs)

Multi-byte fields travel big-endian: `to_be`/`from_be` are the byte swap
on a little-endian host, an involution on values that fit the field. -/

/-- Byte swap of a `u16` value (`u16::to_be` / `u16::from_be`). -/
def bswap16 (n : ℕ) : ℕ := n % 256 * 256 + n / 256 % 256

/-- Byte swap of a `u32` value (`u32::to_be` / `u32::from_be`). -/
def bswap32 (n : ℕ) : ℕ :=
  n % 256 * 16777216 + n / 256 % 256 * 65536 + n / 65536 % 256 * 256 + n / 16777216 % 256

lemma bswap16_eq (hi lo : ℕ) (hhi : hi < 256) (hlo : lo < 256) :
    bswap16 (256 * hi + lo) = 256 * lo + hi := by
  unfold bswap16
  omega

lemma bswap16_invol (n : ℕ) (h : n < 65536) : bswap16 (bswap16 n) = n := by
  obtain ⟨hi, lo, hhi, hlo, rfl⟩ : ∃ hi lo, hi < 256 ∧ lo < 256 ∧ n = 256 * hi + lo :=
    ⟨n / 256, n % 256, by omega, by omega, by omega⟩
  rw [bswap16_eq hi lo hhi hlo, bswap16_eq lo hi hlo hhi]

lemma bswap32_eq (b3 b2 b1 b0 : ℕ) (h3 : b3 < 256) (h2 : b2 < 256)
    (h1 : b1 < 256) (h0 : b0 < 256) :
    bswap32 (16777216 * b3 + 65536 * b2 + 256 * b1 + b0) =
      16777216 * b0 + 65536 * b1 + 256 * b2 + b3 := by
  unfold bswap32
  omega

lemma bswap32_invol (n : ℕ) (h : n < 4294967296) : bswap32 (bswap32 n) = n := by
  obtain ⟨b3, b2, b1, b0, h3, h2, h1, h0, rfl⟩ :
      ∃ b3 b2 b1 b0, b3 < 256 ∧ b2 < 256 ∧ b1 < 256 ∧ b0 < 256 ∧
        n = 16777216 * b3 + 65536 * b2 + 256 * b1 + b0 :=
    ⟨n / 16777216, n / 65536 % 256, n / 256 % 256, n % 256,
      by omega, by omega, by omega, by omega, by omega⟩
  rw [bswap32_eq b3 b2 b1 b0 h3 h2 h1 h0, bswap32_eq b0 b1 b2 b3 h0 h1 h2 h3]

/-- `TileClass` from `msg/src/lib.rs`. -/
inductive TileClass : Type
  | void
  | mountain
  | mineC
  | grasslandC
  | villageC
  | townC
  | fortressC
  deriving DecidableEq, Repr

/-- The `u8` discriminant of a `TileClass`. -/
def TileClass.toByte : TileClass → ℕ
  | .void => 0
  | .mountain => 1
  | .mineC => 2
  | .grasslandC => 3
  | .villageC => 4
  | .townC => 5
  | .fortressC => 6

/-- `TryFrom<u8> for TileClass` from `msg/src/lib.rs`. -/
def TileClass.ofByte : ℕ → Option TileClass
  | 0 => some .void
  | 1 => some .mountain
  | 2 => some .mineC
  | 3 => some .grasslandC
  | 4 => some .villageC
  | 5 => some .townC
  | 6 => some .fortressC
  | _ => none

/-- `From<&Tile> for TileClass` from `msg/src/lib.rs`. -/
def Tile.classOf : Tile → TileClass
  | .void => .void
  | .mountain => .mountain
  | .mine _ => .mineC
  | .habitable land _ _ =>
    match land with
    | .fortress => .fortressC
    | .town => .townC
    | .village => .villageC
    | .grassland => .grasslandC

/-- `From<TileClass> for Tile` from `msg/src/lib.rs`: the skeleton tile
with zero units and the default (neutral) owner. -/
def TileClass.skeleton : TileClass → Tile
  | .void => .void
  | .mountain => .mountain
  | .mineC => .mine NEUTRAL
  | .grasslandC => .habitable .grassland zeroUnits NEUTRAL
  | .villageC => .habitable .village zeroUnits NEUTRAL
  | .townC => .habitable .town zeroUnits NEUTRAL
  | .fortressC => .habitable .fortress zeroUnits NEUTRAL

lemma ofByte_toByte (c : TileClass) : TileClass.ofByte c.toByte = some c := by
  cases c <;> rfl

/-- `S2CData` from `msg/src/lib.rs`: the packed snapshot frame.  The
fixed `[.. ; MAX_HEIGHT] ; MAX_WIDTH]` arrays become total functions read
only below 40×29; multi-byte fields hold their big-endian byte image. -/
structure S2CData : Type where
  player : ℕ
  pauseRequest : ℕ
  gold : ℕ → ℕ
  time : ℕ
  width : ℕ
  height : ℕ
  flag : ℕ → ℕ → ℕ
  owner : ℕ → ℕ → ℕ
  pop : ℕ → ℕ → ℕ
  tile : ℕ → ℕ → ℕ

/-- The bit fold `acc |= 1 << p` over players `0..n`. -/
def flagFold (b : ℕ → Bool) (n : ℕ) : ℕ :=
  (List.range n).foldl (fun acc p => if b p then acc ||| (1 <<< p) else acc) 0

/-- The flag byte of `S2CData::new`: bit `p` is set exactly when player
`p`'s flag grid has a flag at `(x, y)`. -/
def flagByteOf (s : State) (x y : ℕ) : ℕ :=
  flagFold (fun p => (s.fgs p).isFlagged x y) 8

/-- `S2CData::new` from `msg/src/server.rs`: pack the snapshot.  Entries
of the per-tile arrays beyond the grid dimensions keep their zero
initialisation. -/
def S2CData.new (pl : ℕ) (s : State) : S2CData where
  player := pl % 256
  pauseRequest := 0
  gold := fun i => bswap32 ((s.countries i).gold % 4294967296)
  time := bswap32 (s.time % 4294967296)
  width := s.grid.width % 256
  height := s.grid.height % 256
  flag := fun x y => flagByteOf s x y
  owner := fun x y =>
    if x < s.grid.width ∧ y < s.grid.height then (s.grid.tiles x y).owner % 256 else 0
  pop := fun x y =>
    if x < s.grid.width ∧ y < s.grid.height then
      bswap16 ((s.grid.tiles x y).unitsOf ((s.grid.tiles x y).owner) % 65536)
    else 0
  tile := fun x y =>
    if x < s.grid.width ∧ y < s.grid.height then (s.grid.tiles x y).classOf.toByte else 0

/-- Writing the decoded population into a freshly decoded tile: player
`ow`'s slot gets `pop` (zero for the neutral owner), and `units[0]` is
mirrored; a tile without units (`units_mut` is `None`) reads `pop = 0`
and stays unchanged. -/
def s2cInstallPop (ow pop : ℕ) : Tile → Tile
  | .habitable land u o =>
    if ow < 8 then
      Tile.habitable land
        (Function.update (Function.update u ow (if ow = 0 then 0 else pop)) 0
          (if ow = 0 then 0 else pop)) o
    else .habitable land (Function.update u 0 0) o
  | t => t

/-- The per-tile body of `apply_s2c_msg`: decode the class byte, build
the skeleton, install the owner, then its population, then the cached
total (`units[0]`).  `none` when the data arrays have no entry `(x, y)`
or the class byte is invalid, in which case the loop `continue`s. -/
def s2cNewTile (d : S2CData) (x y : ℕ) : Option Tile :=
  if x < 40 ∧ y < 29 then
    (TileClass.ofByte (d.tile x y)).map fun cls =>
      s2cInstallPop (d.owner x y) (bswap16 (d.pop x y))
        ((cls.skeleton).setOwner (d.owner x y))
  else none

/-- The tile store after `apply_s2c_msg`: in-bounds tiles are replaced
by the decoded frame tile; a `continue` keeps the old tile. -/
def s2cTiles (s : State) (d : S2CData) (x y : ℕ) : Tile :=
  if x < s.grid.width ∧ y < s.grid.height then (s2cNewTile d x y).getD (s.grid.tiles x y)
  else s.grid.tiles x y

/-- The flag store of player `p` after `apply_s2c_msg`: bit `p` of the
frame's flag byte wherever the tile loop reached `(x, y)`. -/
def s2cFlags (s : State) (d : S2CData) (p x y : ℕ) : Bool :=
  if x < s.grid.width ∧ y < s.grid.height ∧ (s2cNewTile d x y).isSome then (d.flag x y).testBit p
  else (s.fgs p).flags x y

/-- The call store of player `p` after `apply_s2c_msg`: zeroed wherever
the tile loop reached `(x, y)`. -/
def s2cCall (s : State) (d : S2CData) (p x y : ℕ) : ℤ :=
  if x < s.grid.width ∧ y < s.grid.height ∧ (s2cNewTile d x y).isSome then 0
  else (s.fgs p).call x y

/-- The flag grid of player `p` after `apply_s2c_msg`. -/
def s2cFg (s : State) (d : S2CData) (p : ℕ) : FlagGrid :=
  if p < 8 then ⟨d.width, d.height, s2cFlags s d p, s2cCall s d p⟩ else s.fgs p

/-- The country array after `apply_s2c_msg`. -/
def s2cCountries (s : State) (d : S2CData) (i : ℕ) : Country :=
  if i < 8 then { s.countries i with gold := bswap32 (d.gold i) } else s.countries i

/-- `apply_s2c_msg` from `msg/src/client.rs`, in mutation style: the
state after the call plus the error, if any.  The Rust original returns
before any mutation when the frame is stale. -/
def applyS2C (s : State) (d : S2CData) : State × Option Err :=
  if bswap32 d.time ≤ s.time then (s, some (.deprecatedMsg (bswap32 d.time)))
  else
    ({ grid := { s.grid with tiles := s2cTiles s d },
       fgs := s2cFg s d,
       countries := s2cCountries s d,
       time := bswap32 d.time,
       controlled := d.player }, none)

/-- C7.  `apply_s2c_msg` rejects a frame whose decoded time is not newer
than the local clock with `DeprecatedMsg`, leaving the state untouched. -/
theorem apply_s2c_stale (s : State) (d : S2CData)
    (h : bswap32 d.time ≤ s.time) :
    applyS2C s d = (s, some (.deprecatedMsg (bswap32 d.time))) := by
  unfold applyS2C
  rw [if_pos h]

/-- The C7 witness state: time 100, trivial 1×1 world. -/
def wStateC7 : State where
  grid := ⟨1, 1, fun _ _ => .habitable .grassland zeroUnits 0⟩
  fgs := fun _ => ⟨1, 1, fun _ _ => false, fun _ _ => 0⟩
  countries := fun i => ⟨i, 0⟩
  time := 100
  controlled := 1

/-- The C7 witness frame: carries the (big-endian encoded) time 100,
equal to the state clock. -/
def wDataC7 : S2CData where
  player := 1
  pauseRequest := 0
  gold := fun _ => 0
  time := bswap32 100
  width := 1
  height := 1
  flag := fun _ _ => 0
  owner := fun _ _ => 0
  pop := fun _ _ => 0
  tile := fun _ _ => 3

/-- Witness for C7: applying a frame stamped 100 to a state at time 100
yields `DeprecatedMsg` and returns the state unchanged. -/
theorem apply_s2c_stale_witness :
    applyS2C wStateC7 wDataC7 = (wStateC7, some (.deprecatedMsg 100)) := by
  have h : bswap32 wDataC7.time ≤ wStateC7.time := by decide
  have h2 := apply_s2c_stale wStateC7 wDataC7 h
  have h3 : bswap32 wDataC7.time = 100 := by decide
  rw [h3] at h2
  exact h2

lemma flagFold_succ (b : ℕ → Bool) (n : ℕ) :
    flagFold b (n + 1) =
      if b n then flagFold b n ||| (1 <<< n) else flagFold b n := by
  simp [flagFold, List.range_succ]

lemma flagFold_lt (b : ℕ → Bool) (n : ℕ) : flagFold b n < 2 ^ n := by
  induction n with
  | zero => simp [flagFold]
  | succ n ih =>
    have hpow : (2 : ℕ) ^ n < 2 ^ (n + 1) := by
      have := Nat.pow_lt_pow_right (a := 2) one_lt_two (Nat.lt_succ_self n)
      exact this
    rw [flagFold_succ]
    split_ifs
    · rw [Nat.one_shiftLeft]
      exact Nat.or_lt_two_pow (lt_trans ih hpow) hpow
    · exact lt_trans ih hpow

lemma flagFold_testBit (b : ℕ → Bool) (n q : ℕ) (hq : q < n) :
    (flagFold b n).testBit q = b q := by
  induction n with
  | zero => omega
  | succ n ih =>
    rw [flagFold_succ]
    by_cases hqn : q = n
    · subst hqn
      by_cases hb : b q
      · rw [if_pos hb, Nat.one_shiftLeft, Nat.testBit_lor,
          Nat.testBit_lt_two_pow (flagFold_lt b q), Nat.testBit_two_pow_self, hb]
        rfl
      · rw [if_neg hb, Nat.testBit_lt_two_pow (flagFold_lt b q)]
        exact (Bool.not_eq_true (b q)).mp hb |>.symm ▸ rfl
    · have hq2 : q < n := by omega
      by_cases hb : b n
      · rw [if_pos hb, Nat.one_shiftLeft, Nat.testBit_lor,
          Nat.testBit_two_pow_of_ne (fun hcc => hqn hcc.symm), ih hq2,
          Bool.or_false]
      · rw [if_neg hb]
        exact ih hq2

lemma flagByteOf_testBit (s : State) (x y p : ℕ) (hp : p < 8) :
    (flagByteOf s x y).testBit p = (s.fgs p).isFlagged x y :=
  flagFold_testBit _ 8 p hp

/-- The per-tile data-model invariants assumed by the round-trip law:
`units[0]` caches the sum, all populations fit a `u16`, and the owner is
NEUTRAL with no population or a real player with maximal population;
mine owners are real player indices. -/
def tileDataInv : Tile → Prop
  | .habitable _ u o =>
      u 0 = sumUnits u ∧ (∀ p, p < 8 → u p < 65536) ∧
      ((o = 0 ∧ ∀ p, 1 ≤ p → p ≤ 7 → u p = 0) ∨
        (1 ≤ o ∧ o ≤ 7 ∧ ∀ p, 1 ≤ p → p ≤ 7 → u p ≤ u o))
  | .mine p => p < 8
  | _ => True

lemma classOf_skeleton_habitable (land : HabitLand) (u : Units) (o : ℕ) :
    (Tile.classOf (.habitable land u o)).skeleton =
      Tile.habitable land zeroUnits NEUTRAL := by
  cases land <;> rfl

lemma classOf_habitable_units (land : HabitLand) (u1 u2 : Units) (o1 o2 : ℕ) :
    Tile.classOf (.habitable land u1 o1) = Tile.classOf (.habitable land u2 o2) := by
  cases land <;> rfl

/-- Population installation on a habitable tile with a real owner byte. -/
lemma s2cInstallPop_habitable (ow pop : ℕ) (land : HabitLand) (u : Units)
    (o : ℕ) (how : ow < 8) :
    s2cInstallPop ow pop (.habitable land u o) =
      Tile.habitable land
        (Function.update (Function.update u ow (if ow = 0 then 0 else pop)) 0
          (if ow = 0 then 0 else pop)) o := by
  unfold s2cInstallPop
  dsimp only
  rw [if_pos how]

/-- Decoding the tile `S2CData::new` encoded reproduces its class, owner
and owner population. -/
lemma s2cNewTile_roundtrip (s : State) (pl : ℕ) (x y : ℕ)
    (hx : x < s.grid.width) (hy : y < s.grid.height)
    (hw : s.grid.width ≤ 40) (hh : s.grid.height ≤ 29)
    (hinv : tileDataInv (s.grid.tiles x y)) :
    ∃ t2, s2cNewTile (S2CData.new pl s) x y = some t2 ∧
      t2.classOf = (s.grid.tiles x y).classOf ∧
      t2.owner = (s.grid.tiles x y).owner ∧
      t2.unitsOf ((s.grid.tiles x y).owner) =
        (s.grid.tiles x y).unitsOf ((s.grid.tiles x y).owner) := by
  have hxy : x < 40 ∧ y < 29 := ⟨by omega, by omega⟩
  have htb : (S2CData.new pl s).tile x y = (s.grid.tiles x y).classOf.toByte := by
    unfold S2CData.new
    exact if_pos ⟨hx, hy⟩
  have hob : (S2CData.new pl s).owner x y = (s.grid.tiles x y).owner % 256 := by
    unfold S2CData.new
    exact if_pos ⟨hx, hy⟩
  have hpb : (S2CData.new pl s).pop x y =
      bswap16 ((s.grid.tiles x y).unitsOf ((s.grid.tiles x y).owner) % 65536) := by
    unfold S2CData.new
    exact if_pos ⟨hx, hy⟩
  unfold s2cNewTile
  rw [if_pos hxy, htb, ofByte_toByte, Option.map_some']
  rcases ht : s.grid.tiles x y with _ | _ | p | ⟨land, u, o⟩
  · rw [ht] at hob
    rw [hob]
    exact ⟨Tile.void, rfl, rfl, rfl, rfl⟩
  · rw [ht] at hob
    rw [hob]
    exact ⟨Tile.mountain, rfl, rfl, rfl, rfl⟩
  · rw [ht] at hob hinv
    have hp8 : p < 8 := hinv
    have hob2 : (S2CData.new pl s).owner x y = p := by
      rw [hob]
      show p % 256 = p
      exact Nat.mod_eq_of_lt (by omega)
    rw [hob2]
    exact ⟨Tile.mine p, rfl, rfl, rfl, rfl⟩
  · rw [ht] at hob hpb hinv
    rcases hinv with ⟨hcache, hbound, hown⟩
    have ho8 : o < 8 := by
      rcases hown with ⟨h0, hrest⟩ | ⟨h1, h7, hrest⟩
      · omega
      · omega
    have hob2 : (S2CData.new pl s).owner x y = o := by
      rw [hob]
      show o % 256 = o
      exact Nat.mod_eq_of_lt (by omega)
    rw [hob2, classOf_skeleton_habitable]
    rw [show (Tile.habitable land zeroUnits NEUTRAL).setOwner o =
      Tile.habitable land zeroUnits o from rfl]
    rw [s2cInstallPop_habitable _ _ _ _ _ ho8]
    refine ⟨_, rfl, classOf_habitable_units land _ u _ o, rfl, ?_⟩
    show Function.update
        (Function.update zeroUnits o
          (if o = 0 then 0 else bswap16 ((S2CData.new pl s).pop x y))) 0
        (if o = 0 then 0 else bswap16 ((S2CData.new pl s).pop x y)) o =
      (Tile.habitable land u o).unitsOf o
    by_cases ho : o = 0
    · subst ho
      rw [if_pos rfl, Function.update_same]
      show (0 : ℕ) = u 0
      rcases hown with ⟨_, hz⟩ | ⟨h1, _, _⟩
      · have hs : sumUnits u = 0 := by
          unfold sumUnits
          simp only [List.sum_eq_zero_iff, List.mem_map, List.mem_range]
          rintro n ⟨k, hk, rfl⟩
          exact hz (k + 1) (by omega) (by omega)
        omega
      · omega
    · rw [if_neg ho, hpb]
      rw [show (Tile.habitable land u o).owner = o from rfl]
      rw [show (Tile.habitable land u o).unitsOf = u from rfl]
      rw [Nat.mod_eq_of_lt (hbound o ho8)]
      rw [bswap16_invol _ (hbound o ho8)]
      rw [Function.update_noteq ho, Function.update_same]

/-- The decoded snapshot time. -/
lemma s2c_new_time (pl : ℕ) (s : State) :
    bswap32 ((S2CData.new pl s).time) = s.time % 4294967296 :=
  bswap32_invol _ (Nat.mod_lt _ (by norm_num))

/-- C3.  Round trip: applying the snapshot `S2CData::new(p, state)` to a
destination state of the same grid dimensions and an older clock
succeeds, and reproduces every source tile's class, owner and owner
population, and every player's flag bit, tile for tile. -/
theorem s2c_roundtrip (s sp : State) (pl : ℕ)
    (hw : s.grid.width ≤ 40) (hh : s.grid.height ≤ 29)
    (hdw : sp.grid.width = s.grid.width) (hdh : sp.grid.height = s.grid.height)
    (htime : sp.time < s.time % 4294967296)
    (hinv : ∀ x y, x < s.grid.width → y < s.grid.height →
      tileDataInv (s.grid.tiles x y)) :
    (applyS2C sp (S2CData.new pl s)).2 = none ∧
    ∀ x y, x < s.grid.width → y < s.grid.height →
      (((applyS2C sp (S2CData.new pl s)).1.grid.tiles x y).classOf =
          (s.grid.tiles x y).classOf ∧
        ((applyS2C sp (S2CData.new pl s)).1.grid.tiles x y).owner =
          (s.grid.tiles x y).owner ∧
        ((applyS2C sp (S2CData.new pl s)).1.grid.tiles x y).unitsOf
            ((s.grid.tiles x y).owner) =
          (s.grid.tiles x y).unitsOf ((s.grid.tiles x y).owner)) ∧
      ∀ p, p < 8 →
        ((applyS2C sp (S2CData.new pl s)).1.fgs p).flags x y =
          (s.fgs p).isFlagged x y := by
  have hfresh : ¬ bswap32 ((S2CData.new pl s).time) ≤ sp.time := by
    rw [s2c_new_time]
    omega
  have happ : applyS2C sp (S2CData.new pl s) =
      ({ grid := { sp.grid with tiles := s2cTiles sp (S2CData.new pl s) },
         fgs := s2cFg sp (S2CData.new pl s),
         countries := s2cCountries sp (S2CData.new pl s),
         time := bswap32 ((S2CData.new pl s).time),
         controlled := (S2CData.new pl s).player }, none) := by
    unfold applyS2C
    rw [if_neg hfresh]
  refine ⟨by rw [happ], ?_⟩
  intro x y hx hy
  obtain ⟨t2, hsome, hcls, hown, hunits⟩ :=
    s2cNewTile_roundtrip s pl x y hx hy hw hh (hinv x y hx hy)
  have htile : (applyS2C sp (S2CData.new pl s)).1.grid.tiles x y = t2 := by
    rw [happ]
    show s2cTiles sp (S2CData.new pl s) x y = t2
    unfold s2cTiles
    rw [if_pos ⟨by omega, by omega⟩, hsome]
    rfl
  refine ⟨⟨by rw [htile, hcls], by rw [htile, hown], by rw [htile, hunits]⟩, ?_⟩
  intro p hp
  have hfg : (applyS2C sp (S2CData.new pl s)).1.fgs p =
      ⟨(S2CData.new pl s).width, (S2CData.new pl s).height,
        s2cFlags sp (S2CData.new pl s) p, s2cCall sp (S2CData.new pl s) p⟩ := by
    rw [happ]
    show s2cFg sp (S2CData.new pl s) p = _
    unfold s2cFg
    rw [if_pos hp]
  rw [hfg]
  show s2cFlags sp (S2CData.new pl s) p x y = (s.fgs p).isFlagged x y
  unfold s2cFlags
  rw [if_pos ⟨by omega, by omega, by rw [hsome]; rfl⟩]
  have hflag : (S2CData.new pl s).flag x y = flagByteOf s x y := rfl
  rw [hflag]
  exact flagByteOf_testBit s x y p hp

/-- Units of the C3 witness tile: player 1 holds 10, `units[0]` caches 10. -/
def wUnitsC3 : Units := fun p => if p = 0 ∨ p = 1 then 10 else 0

/-- Source state of the C3 witness: 1×1 village owned by player 1,
player 1 has a flag on it. -/
def wSrcC3 : State where
  grid := ⟨1, 1, fun _ _ => .habitable .village wUnitsC3 1⟩
  fgs := fun p => ⟨1, 1, fun _ _ => p == 1, fun _ _ => 0⟩
  countries := fun i => ⟨i, 100⟩
  time := 500
  controlled := 1

/-- Destination state of the C3 witness: same dimensions, older clock,
garbage content. -/
def wDstC3 : State where
  grid := ⟨1, 1, fun _ _ => .void⟩
  fgs := fun _ => ⟨1, 1, fun _ _ => false, fun _ _ => 5⟩
  countries := fun i => ⟨i, 0⟩
  time := 10
  controlled := 3

/-- Witness for C3 at a concrete pair of states: the snapshot applies
cleanly and the destination's sole tile and flag bits match the source. -/
theorem s2c_roundtrip_witness :
    (applyS2C wDstC3 (S2CData.new 2 wSrcC3)).2 = none ∧
    ((applyS2C wDstC3 (S2CData.new 2 wSrcC3)).1.grid.tiles 0 0).classOf =
      (wSrcC3.grid.tiles 0 0).classOf ∧
    ((applyS2C wDstC3 (S2CData.new 2 wSrcC3)).1.grid.tiles 0 0).owner =
      (wSrcC3.grid.tiles 0 0).owner ∧
    ((applyS2C wDstC3 (S2CData.new 2 wSrcC3)).1.grid.tiles 0 0).unitsOf
        ((wSrcC3.grid.tiles 0 0).owner) =
      (wSrcC3.grid.tiles 0 0).unitsOf ((wSrcC3.grid.tiles 0 0).owner) ∧
    ((applyS2C wDstC3 (S2CData.new 2 wSrcC3)).1.fgs 1).flags 0 0 =
      (wSrcC3.fgs 1).isFlagged 0 0 := by
  have hinv : ∀ x y, x < wSrcC3.grid.width → y < wSrcC3.grid.height →
      tileDataInv (wSrcC3.grid.tiles x y) := by
    intro x y hx hy
    show tileDataInv (Tile.habitable .village wUnitsC3 1)
    refine ⟨by decide, by decide, Or.inr ⟨by decide, by decide, ?_⟩⟩
    intro p h1 h7
    interval_cases p <;> decide
  obtain ⟨h1, h2⟩ :=
    s2c_roundtrip wSrcC3 wDstC3 2 (by decide) (by decide) rfl rfl (by decide) hinv
  have h3 := h2 0 0 (by decide) (by decide)
  exact ⟨h1, h3.1.1, h3.1.2.1, h3.1.2.2, h3.2 1 (by decide)⟩

/-!  ### The combat phase of `State::simulate` (src/state.rs)

Per habitable tile: `total_pop = my_pops[0]` (the cached slot, not the
live sum), `enemy_pop = total_pop - my_pop`, and for each real player a
randomised damage subtracted with a floor at zero.  `rand p` is the
uniform sample drawn by `rnd_round!` for player `p` on this tile. -/

/-- The total the combat loop reads: `let total_pop = my_pops[0];`. -/
def combatTotal (u : Units) : ℕ := u 0

/-- The damage `rnd_round!(enemy_pop * my_pop / total_pop)` for player
`p`, zero when `total_pop == 0` (the rounding is skipped). -/
def combatDmg (u : Units) (rand : ℕ → ℚ) (p : ℕ) : ℤ :=
  if combatTotal u = 0 then 0
  else rndRound (((combatTotal u : ℚ) - u p) * u p / (combatTotal u : ℚ)) (rand p)

/-- The populations after the combat loop:
`units[p] = (my_pop - dmg).max(0)` for `p` in `1..=7`. -/
def combatUnits (u : Units) (rand : ℕ → ℚ) : Units :=
  fun p => if 1 ≤ p ∧ p ≤ 7 then ((u p : ℤ) - combatDmg u rand p).toNat else u p

/-- Modelled from the spec sentence of C1: the damage with
`total = sum of u[1..=7]`. -/
def specCombatDmg (u : Units) (rand : ℕ → ℚ) (p : ℕ) : ℤ :=
  if sumUnits u = 0 then 0
  else rndRound (((sumUnits u : ℚ) - u p) * u p / (sumUnits u : ℚ)) (rand p)

/-- Modelled from the spec sentence of C1: populations after combat with
`total = sum of u[1..=7]`. -/
def specCombatUnits (u : Units) (rand : ℕ → ℚ) : Units :=
  fun p => if 1 ≤ p ∧ p ≤ 7 then ((u p : ℤ) - specCombatDmg u rand p).toNat else u p

lemma rndRound_zero (r : ℚ) (hr : 0 ≤ r) : rndRound 0 r = 0 := by
  unfold rndRound truncQ
  norm_num
  exact hr

/-- C1 counterexample.  On the tile content of a starting fortress right
after map generation (`units[owner] = 10` set by `Grid::conflict` without
refreshing the cache), the total the combat loop computes (`units[0] = 0`)
is not the sum of the real populations (`10`). -/
theorem combat_total_counterexample :
    combatTotal (fun p => if p = 1 then 10 else 0) ≠
      sumUnits (fun p => if p = 1 then 10 else 0) := by
  decide

/-- C1 amended.  Combat reads `total = units[0]` (the cache).  Under the
cache invariant `units[0] = Σ u[1..=7]` — true after every simulate and
every snapshot apply — the update equals the claimed formula with
`total = Σ u[1..=7]`; on the freshly generated states, where `units[0]`
is 0 and each tile's population is concentrated on one player, both
formulas deal zero damage, so the populations also agree. -/
theorem combat_amended (u : Units) (rand : ℕ → ℚ) :
    (u 0 = sumUnits u → ∀ p, combatUnits u rand p = specCombatUnits u rand p) ∧
    (u 0 = 0 → (∀ p, 1 ≤ p → p ≤ 7 → u p = 0 ∨ u p = sumUnits u) →
      (∀ r, 0 ≤ rand r) →
      ∀ p, combatUnits u rand p = u p ∧ specCombatUnits u rand p = u p) := by
  constructor
  · intro hcache p
    unfold combatUnits specCombatUnits combatDmg specCombatDmg combatTotal
    rw [hcache]
  · intro h0 hconc hrand p
    have hdmg0 : combatDmg u rand p = 0 := by
      unfold combatDmg combatTotal
      rw [h0]
      rfl
    by_cases hp : 1 ≤ p ∧ p ≤ 7
    · have hspec0 : specCombatDmg u rand p = 0 := by
        unfold specCombatDmg
        by_cases hs : sumUnits u = 0
        · rw [if_pos hs]
        · rw [if_neg hs]
          rcases hconc p hp.1 hp.2 with hz | hfull
          · rw [hz]
            push_cast
            rw [mul_zero, zero_div]
            exact rndRound_zero _ (hrand p)
          · rw [hfull]
            rw [sub_self, zero_mul, zero_div]
            exact rndRound_zero _ (hrand p)
      constructor
      · unfold combatUnits
        rw [if_pos hp, hdmg0]
        omega
      · unfold specCombatUnits
        rw [if_pos hp, hspec0]
        omega
    · constructor
      · unfold combatUnits
        rw [if_neg hp]
      · unfold specCombatUnits
        rw [if_neg hp]

/-- Witness for the amended C1: with the cache valid (`units[0] = 10`,
player 1 holds 10) or fresh from generation (`units[0] = 0`), the combat
update leaves player 1's ten units intact under both formulas. -/
theorem combat_amended_witness :
    combatUnits (fun p => if p = 0 ∨ p = 1 then 10 else 0) (fun _ => 0) 1 =
      specCombatUnits (fun p => if p = 0 ∨ p = 1 then 10 else 0) (fun _ => 0) 1 ∧
    combatUnits (fun p => if p = 1 then 10 else 0) (fun _ => 0) 1 = 10 ∧
    specCombatUnits (fun p => if p = 1 then 10 else 0) (fun _ => 0) 1 = 10 := by
  refine ⟨(combat_amended _ _).1 (by decide) 1, ?_, ?_⟩
  · exact ((combat_amended _ (fun _ => 0)).2 (by decide)
      (by(intro p h1 h7; interval_cases p <;> decide)) (fun r => le_refl 0) 1).1
  · exact ((combat_amended _ (fun _ => 0)).2 (by decide)
      (by(intro p h1 h7; interval_cases p <;> decide)) (fun r => le_refl 0) 1).2

/-!  ### Mine ownership resolution in `State::simulate` (src/state.rs)  -/

/-- The owners of the habitable neighbors of `pos`, in `Pos::DIRS`
order (non-habitable or out-of-grid neighbors contribute nothing). -/
def habNeighborOwners (g : Grid) (pos : Pos) : List ℕ :=
  DIRS.filterMap fun d =>
    match g.tileAt (pos.1 + d.1, pos.2 + d.2) with
    | some (.habitable _ _ o) => some o
    | _ => none

/-- One step of the mine-owner scan: `Some(NEUTRAL)` adopts the player,
a different non-neutral player forces the conflict marker `None`. -/
def mineOwnerStep (acc : Option ℕ) (pl : ℕ) : Option ℕ :=
  match acc with
  | some o => if o = 0 then some pl else if o ≠ pl ∧ pl ≠ 0 then none else some o
  | none => none

/-- The mine-owner scan over the habitable neighbor owners, starting
from `Some(NEUTRAL)`. -/
def mineOwnerFold (l : List ℕ) : Option ℕ :=
  l.foldl mineOwnerStep (some 0)

/-- The owner the mine receives: the scan result, or NEUTRAL on
conflict. -/
def mineResolvedOwner (g : Grid) (pos : Pos) : ℕ :=
  (mineOwnerFold (habNeighborOwners g pos)).getD 0

/-- The gold credited to country `i` for this mine in this tick. -/
def mineGoldDelta (g : Grid) (pos : Pos) (i : ℕ) : ℕ :=
  match mineOwnerFold (habNeighborOwners g pos) with
  | some o => if o ≠ 0 ∧ i = o then 1 else 0
  | none => 0

/-- The whole mine-ownership block of `State::simulate` for the mine at
`pos`: set the resolved owner on the tile and credit the gold. -/
def mineStep (g : Grid) (cs : ℕ → Country) (pos : Pos) : Grid × (ℕ → Country) :=
  (g.setTile pos ((g.tiles pos.1.toNat pos.2.toNat).setOwner (mineResolvedOwner g pos)),
    fun i => { cs i with gold := (cs i).gold + mineGoldDelta g pos i })

lemma tileAt_setTile_self (g : Grid) (pos : Pos) (t t0 : Tile)
    (h : g.tileAt pos = some t0) : (g.setTile pos t).tileAt pos = some t := by
  unfold Grid.tileAt at h ⊢
  split at h
  · rename_i hb
    unfold Grid.setTile
    dsimp only
    rw [if_pos hb, if_pos ⟨Int.toNat_of_nonneg hb.1, Int.toNat_of_nonneg hb.2.2.1⟩]
  · exact Option.noConfusion h

lemma mineOwnerFold_all_zero (l : List ℕ) (h : ∀ q ∈ l, q = 0) :
    mineOwnerFold l = some 0 := by
  induction l with
  | nil => rfl
  | cons a as ih =>
    have ha : a = 0 := h a (by simp)
    subst ha
    show List.foldl mineOwnerStep (mineOwnerStep (some 0) 0) as = some 0
    rw [show mineOwnerStep (some 0) 0 = some 0 from rfl]
    exact ih fun q hq => h q (by simp [hq])

lemma mineOwnerFold_single_aux (p : ℕ) (hp : p ≠ 0) :
    ∀ l : List ℕ, (∀ q ∈ l, q = 0 ∨ q = p) → ∀ acc, (acc = some 0 ∨ acc = some p) →
      (l.foldl mineOwnerStep acc = some 0 ∨ l.foldl mineOwnerStep acc = some p) := by
  intro l
  induction l with
  | nil =>
    intro _ acc hacc
    simpa using hacc
  | cons a as ih =>
    intro hmem acc hacc
    have ha := hmem a (by simp)
    have hstep : mineOwnerStep acc a = some 0 ∨ mineOwnerStep acc a = some p := by
      rcases hacc with rfl | rfl
      · rcases ha with rfl | rfl
        · exact Or.inl rfl
        · exact Or.inr rfl
      · rcases ha with rfl | rfl
        · right
          unfold mineOwnerStep
          dsimp only
          rw [if_neg hp, if_neg (by omega)]
        · right
          unfold mineOwnerStep
          dsimp only
          rw [if_neg hp, if_neg (by omega)]
    exact ih (fun q hq => hmem q (by simp [hq])) _ hstep

/-- With only neutral and one player `p` among the neighbors, the scan
never reaches the conflict marker. -/
lemma mineOwnerFold_single (l : List ℕ) (p : ℕ) (hp : p ≠ 0)
    (h : ∀ q ∈ l, q = 0 ∨ q = p) :
    mineOwnerFold l = some 0 ∨ mineOwnerFold l = some p :=
  mineOwnerFold_single_aux p hp l h (some 0) (Or.inl rfl)

/-- Full characterisation of the mine-owner scan: conflict, all-neutral,
or a unique non-neutral player seen. -/
lemma mineOwnerFold_spec (l : List ℕ) :
    mineOwnerFold l = none ∨
    (mineOwnerFold l = some 0 ∧ ∀ q ∈ l, q = 0) ∨
    (∃ p, mineOwnerFold l = some p ∧ p ≠ 0 ∧ p ∈ l ∧ ∀ q ∈ l, q = 0 ∨ q = p) := by
  induction l using List.reverseRecOn with
  | nil => exact Or.inr (Or.inl ⟨rfl, by simp⟩)
  | append_singleton l x ih =>
    have hstep : mineOwnerFold (l ++ [x]) = mineOwnerStep (mineOwnerFold l) x := by
      unfold mineOwnerFold
      rw [List.foldl_append]
      rfl
    rcases ih with hnone | ⟨h0, hall⟩ | ⟨p, hp, hp0, hpmem, hponly⟩
    · left
      rw [hstep, hnone]
      rfl
    · by_cases hx : x = 0
      · right
        left
        refine ⟨?_, ?_⟩
        · rw [hstep, h0]
          unfold mineOwnerStep
          dsimp only
          rw [if_pos rfl, hx]
        · intro q hq
          rcases List.mem_append.mp hq with hq | hq
          · exact hall q hq
          · simp at hq
            omega
      · right
        right
        refine ⟨x, ?_, hx, by simp, ?_⟩
        · rw [hstep, h0]
          unfold mineOwnerStep
          dsimp only
          rw [if_pos rfl]
        · intro q hq
          rcases List.mem_append.mp hq with hq | hq
          · exact Or.inl (hall q hq)
          · simp at hq
            omega
    · by_cases hx : x = 0 ∨ x = p
      · right
        right
        refine ⟨p, ?_, hp0, List.mem_append.mpr (Or.inl hpmem), ?_⟩
        · rw [hstep, hp]
          unfold mineOwnerStep
          dsimp only
          rw [if_neg hp0]
          rcases hx with hx | hx
          · rw [if_neg (by subst hx; omega)]
          · rw [if_neg (by subst hx; omega)]
        · intro q hq
          rcases List.mem_append.mp hq with hq | hq
          · exact hponly q hq
          · simp at hq
            omega
      · left
        push_neg at hx
        rw [hstep, hp]
        unfold mineOwnerStep
        dsimp only
        rw [if_neg hp0, if_pos ⟨fun hcc => hx.2 hcc.symm, hx.1⟩]

/-- C6.  For each Mine tile, `State::simulate` resolves the owner from
the habitable neighbors' owners — all-neutral keeps NEUTRAL, a unique
non-neutral player captures the mine, two distinct non-neutral owners
reset it to NEUTRAL — and credits exactly one gold to the resolved
non-neutral owner's country, and to nobody else. -/
theorem mine_ownership (g : Grid) (cs : ℕ → Country) (pos : Pos) (m : ℕ)
    (hmine : g.tileAt pos = some (.mine m)) :
    ((∀ q ∈ habNeighborOwners g pos, q = 0) →
      (mineStep g cs pos).1.tileAt pos = some (.mine 0) ∧
        ∀ i, (mineStep g cs pos).2 i = cs i) ∧
    (∀ p, p ≠ 0 → p ∈ habNeighborOwners g pos →
      (∀ q ∈ habNeighborOwners g pos, q = 0 ∨ q = p) →
      (mineStep g cs pos).1.tileAt pos = some (.mine p) ∧
        ((mineStep g cs pos).2 p).gold = (cs p).gold + 1 ∧
        ∀ i, i ≠ p → (mineStep g cs pos).2 i = cs i) ∧
    (∀ p q, p ∈ habNeighborOwners g pos → q ∈ habNeighborOwners g pos →
      p ≠ 0 → q ≠ 0 → p ≠ q →
      (mineStep g cs pos).1.tileAt pos = some (.mine 0) ∧
        ∀ i, (mineStep g cs pos).2 i = cs i) := by
  have htiles : g.tiles pos.1.toNat pos.2.toNat = Tile.mine m := by
    unfold Grid.tileAt at hmine
    split at hmine
    · exact Option.some.inj hmine
    · exact Option.noConfusion hmine
  refine ⟨?_, ?_, ?_⟩
  · intro hall
    have hres : mineOwnerFold (habNeighborOwners g pos) = some 0 :=
      mineOwnerFold_all_zero _ hall
    constructor
    · have : mineResolvedOwner g pos = 0 := by
        unfold mineResolvedOwner
        rw [hres]
        rfl
      have happ := tileAt_setTile_self g pos
        ((g.tiles pos.1.toNat pos.2.toNat).setOwner (mineResolvedOwner g pos)) _ hmine
      rw [show (mineStep g cs pos).1 =
        g.setTile pos ((g.tiles pos.1.toNat pos.2.toNat).setOwner
          (mineResolvedOwner g pos)) from rfl]
      rw [happ, htiles, this]
      rfl
    · intro i
      have : mineGoldDelta g pos i = 0 := by
        unfold mineGoldDelta
        rw [hres]
        show (if (0 : ℕ) ≠ 0 ∧ i = 0 then 1 else 0) = 0
        simp
      show { cs i with gold := (cs i).gold + mineGoldDelta g pos i } = cs i
      rw [this]
      simp
  · intro p hp0 hpmem hponly
    have hres : mineOwnerFold (habNeighborOwners g pos) = some p := by
      rcases mineOwnerFold_spec (habNeighborOwners g pos) with hn | ⟨h0, hall⟩ |
          ⟨p2, hp2, hp20, hp2mem, hp2only⟩
      · rcases mineOwnerFold_single _ p hp0 hponly with hs | hs
        · exact absurd hn (by rw [hs]; simp)
        · exact absurd hn (by rw [hs]; simp)
      · exact absurd (hall p hpmem) hp0
      · rcases hp2only p hpmem with h | h
        · exact absurd h hp0
        · rw [hp2, h]
    constructor
    · have : mineResolvedOwner g pos = p := by
        unfold mineResolvedOwner
        rw [hres]
        rfl
      have happ := tileAt_setTile_self g pos
        ((g.tiles pos.1.toNat pos.2.toNat).setOwner (mineResolvedOwner g pos)) _ hmine
      rw [show (mineStep g cs pos).1 =
        g.setTile pos ((g.tiles pos.1.toNat pos.2.toNat).setOwner
          (mineResolvedOwner g pos)) from rfl]
      rw [happ, htiles, this]
      rfl
    constructor
    · have : mineGoldDelta g pos p = 1 := by
        unfold mineGoldDelta
        rw [hres]
        show (if p ≠ 0 ∧ p = p then 1 else 0) = 1
        rw [if_pos ⟨hp0, rfl⟩]
      show ({ cs p with gold := (cs p).gold + mineGoldDelta g pos p } : Country).gold = _
      rw [this]
    · intro i hip
      have : mineGoldDelta g pos i = 0 := by
        unfold mineGoldDelta
        rw [hres]
        show (if p ≠ 0 ∧ i = p then 1 else 0) = 0
        rw [if_neg (by omega)]
      show { cs i with gold := (cs i).gold + mineGoldDelta g pos i } = cs i
      rw [this]
      simp
  · intro p q hpmem hqmem hp0 hq0 hpq
    have hres : mineOwnerFold (habNeighborOwners g pos) = none := by
      rcases mineOwnerFold_spec (habNeighborOwners g pos) with hn | ⟨h0, hall⟩ |
          ⟨p2, hp2, hp20, hp2mem, hp2only⟩
      · exact hn
      · exact absurd (hall p hpmem) hp0
      · exfalso
        rcases hp2only p hpmem with h | h
        · exact hp0 h
        · rcases hp2only q hqmem with h2 | h2
          · exact hq0 h2
          · exact hpq (h.trans h2.symm)
    constructor
    · have : mineResolvedOwner g pos = 0 := by
        unfold mineResolvedOwner
        rw [hres]
        rfl
      have happ := tileAt_setTile_self g pos
        ((g.tiles pos.1.toNat pos.2.toNat).setOwner (mineResolvedOwner g pos)) _ hmine
      rw [show (mineStep g cs pos).1 =
        g.setTile pos ((g.tiles pos.1.toNat pos.2.toNat).setOwner
          (mineResolvedOwner g pos)) from rfl]
      rw [happ, htiles, this]
      rfl
    · intro i
      have : mineGoldDelta g pos i = 0 := by
        unfold mineGoldDelta
        rw [hres]
      show { cs i with gold := (cs i).gold + mineGoldDelta g pos i } = cs i
      rw [this]
      simp

/-- Grid of the C6 witness: a 2×1 strip, grassland of player 1 at `(0,0)`
next to a neutral mine at `(1,0)`. -/
def wGridC6 : Grid :=
  ⟨2, 1, fun x _ =>
    if x = 0 then
      .habitable .grassland (fun p => if p = 0 ∨ p = 1 then 10 else 0) 1
    else .mine 0⟩

/-- Countries of the C6 witness, all starting with 5 gold. -/
def wCountriesC6 : ℕ → Country := fun i => ⟨i, 5⟩

/-- Witness for C6: the neutral mine with a single habitable neighbor
owned by player 1 flips to player 1 and pays exactly one gold. -/
theorem mine_ownership_witness :
    (mineStep wGridC6 wCountriesC6 (1, 0)).1.tileAt (1, 0) = some (.mine 1) ∧
    ((mineStep wGridC6 wCountriesC6 (1, 0)).2 1).gold = 6 ∧
    (mineStep wGridC6 wCountriesC6 (1, 0)).2 2 = wCountriesC6 2 := by
  obtain ⟨ht, hg, ho⟩ := (mine_ownership wGridC6 wCountriesC6 (1, 0) 0 rfl).2.1 1
    (by decide) (by decide) (by decide)
  exact ⟨ht, by rw [hg]; rfl, ho 2 (by decide)⟩

/-!  ### The migration phase of `State::simulate` (src/state.rs)

The scan direction booleans, the per-(tile, player) direction shift and
the per-neighbor `rnd_round!` samples become oracle parameters.  The
`f32` constants `MOVE = 0.05`, `CALL_MOVE = 0.10` are taken at their
decimal values; every property proved here is independent of the exact
rounded amount. -/

/-- `MOVE` from the migration loop. -/
def MOVE : ℚ := 5 / 100

/-- `CALL_MOVE` from the migration loop. -/
def CALL_MOVE : ℚ := 10 / 100

/-- `FlagGrid::call(pos).unwrap_or_default()`: bounds-checked read of
the call field, zero outside. -/
def callAt (fg : FlagGrid) (pos : Pos) : ℤ :=
  if 0 ≤ pos.1 ∧ pos.1 < (fg.width : ℤ) ∧ 0 ≤ pos.2 ∧ pos.2 < (fg.height : ℤ) then
    fg.call pos.1.toNat pos.2.toNat
  else 0

/-- Tile store update at natural coordinates. -/
def Grid.setTileN (g : Grid) (x y : ℕ) (t : Tile) : Grid :=
  { g with tiles := fun a b => if a = x ∧ b = y then t else g.tiles a b }

/-- `units[p] = (units[p] as i32 + d).max(0) as u16` on the tile at
`(x, y)`, a no-op on non-habitable tiles (the `if let` guard). -/
def addUnits (g : Grid) (x y p : ℕ) (d : ℤ) : Grid :=
  match g.tiles x y with
  | .habitable land u o =>
    g.setTileN x y (.habitable land (Function.update u p ((u p + d).toNat)) o)
  | _ => g

/-- The transferred amount for one neighbor visit:
`rnd_round!(MOVE·initial + CALL_MOVE·dcall·initial).min(pop).min(MAX_POPULATION − units[p])`. -/
def migDpop (g : Grid) (fg : FlagGrid) (p i j : ℕ) (initialPop : ℕ) (dir : Pos)
    (r : ℚ) : ℤ :=
  let pos : Pos := ((i : ℤ) + dir.1, (j : ℤ) + dir.2)
  let nbu := (((g.tileAt pos).map Tile.unitsOf).getD zeroUnits) p
  let pop := (g.tiles i j).unitsOf p
  let dcall := max 0 (callAt fg pos - callAt fg ((i : ℤ), (j : ℤ)))
  min (min (rndRound (MOVE * initialPop + CALL_MOVE * dcall * initialPop) r) (pop : ℤ))
    ((MAX_POPULATION : ℤ) - (nbu : ℤ))

/-- One neighbor visit of the migration loop: when the neighbor is
habitable, add `dpop` there and subtract it from the source. -/
def migApply (g : Grid) (fg : FlagGrid) (p i j : ℕ) (initialPop : ℕ) (dir : Pos)
    (r : ℚ) : Grid :=
  match g.tileAt ((i : ℤ) + dir.1, (j : ℤ) + dir.2) with
  | some (.habitable _ _ _) =>
    addUnits
      (addUnits g ((i : ℤ) + dir.1).toNat ((j : ℤ) + dir.2).toNat p
        (migDpop g fg p i j initialPop dir r))
      i j p (-(migDpop g fg p i j initialPop dir r))
  | _ => g

/-- The six neighbor visits for one `(tile, player)` pair, in order
`DIRS[(k + k_shift) % 6]`. -/
def migK (g : Grid) (fg : FlagGrid) (p i j : ℕ) (initialPop : ℕ) (kshift : ℕ)
    (rand : ℕ → ℚ) : Grid :=
  (List.range 6).foldl
    (fun gcur k => migApply gcur fg p i j initialPop (DIRS.getD ((k + kshift) % 6) (0, 0))
      (rand k)) g

/-- The player loop for one tile: `initial_pop` is captured from the
current grid at loop entry. -/
def migP (g : Grid) (fgs : ℕ → FlagGrid) (i j : ℕ) (kShift : ℕ → ℕ)
    (rand : ℕ → ℕ → ℚ) : Grid :=
  ((List.range 7).map (· + 1)).foldl
    (fun gcur p =>
      migK gcur (fgs p) p i j ((gcur.tiles i j).unitsOf p) (kShift p) (rand p)) g

/-- Scan order of one axis, ascending or descending. -/
def scanList (n : ℕ) (rev : Bool) : List ℕ :=
  if rev then (List.range n).reverse else List.range n

/-- The tile traversal of the migration pass: `i` outer, `j` inner, each
ascending or descending per the two random draws. -/
def cellList (g : Grid) (revI revJ : Bool) : List (ℕ × ℕ) :=
  (scanList g.width revI).flatMap fun i => (scanList g.height revJ).map fun j => (i, j)

/-- The whole migration pass. -/
def migration (g : Grid) (fgs : ℕ → FlagGrid) (revI revJ : Bool)
    (kShift : ℕ → ℕ → ℕ → ℕ) (rand : ℕ → ℕ → ℕ → ℕ → ℚ) : Grid :=
  (cellList g revI revJ).foldl
    (fun gcur c => migP gcur fgs c.1 c.2 (kShift c.1 c.2) (rand c.1 c.2)) g

/-- Grid-wide population of player `p`. -/
def gridSumP (g : Grid) (p : ℕ) : ℕ :=
  ∑ x ∈ Finset.range g.width, ∑ y ∈ Finset.range g.height, (g.tiles x y).unitsOf p

/-- All populations within the `u16`-backed game bound. -/
def unitsBounded (g : Grid) : Prop :=
  ∀ x y q, (g.tiles x y).unitsOf q ≤ MAX_POPULATION

lemma rndRound_nonneg (x r : ℚ) (hx : 0 ≤ x) : 0 ≤ rndRound x r := by
  unfold rndRound truncQ
  rw [if_pos hx]
  have h1 : (0 : ℤ) ≤ ⌊x⌋ := Int.floor_nonneg.mpr hx
  split_ifs <;> omega

lemma setTileN_width (g : Grid) (x y : ℕ) (t : Tile) :
    (g.setTileN x y t).width = g.width := rfl

lemma setTileN_height (g : Grid) (x y : ℕ) (t : Tile) :
    (g.setTileN x y t).height = g.height := rfl

lemma gridSumP_set (g : Grid) (x y : ℕ) (hx : x < g.width) (hy : y < g.height)
    (t : Tile) (p : ℕ) :
    gridSumP (g.setTileN x y t) p + (g.tiles x y).unitsOf p =
      gridSumP g p + t.unitsOf p := by
  unfold gridSumP
  rw [setTileN_width, setTileN_height]
  have hsplit : ∀ (f : ℕ → ℕ → ℕ),
      ∑ a ∈ Finset.range g.width, ∑ b ∈ Finset.range g.height, f a b =
        (∑ a ∈ Finset.range g.width \ {x}, ∑ b ∈ Finset.range g.height, f a b) +
          ((∑ b ∈ Finset.range g.height \ {y}, f x b) + f x y) := by
    intro f
    rw [← Finset.sum_eq_sum_diff_singleton_add (Finset.mem_range.mpr hy) (f x)]
    exact Finset.sum_eq_sum_diff_singleton_add (Finset.mem_range.mpr hx) _
  rw [hsplit, hsplit]
  have houter : ∑ a ∈ Finset.range g.width \ {x},
      ∑ b ∈ Finset.range g.height, ((g.setTileN x y t).tiles a b).unitsOf p =
      ∑ a ∈ Finset.range g.width \ {x},
      ∑ b ∈ Finset.range g.height, (g.tiles a b).unitsOf p := by
    refine Finset.sum_congr rfl fun a ha => Finset.sum_congr rfl fun b hb => ?_
    have hax : a ≠ x := by
      intro hcc
      subst hcc
      exact (Finset.mem_sdiff.mp ha).2 (Finset.mem_singleton.mpr rfl)
    show ((if a = x ∧ b = y then t else g.tiles a b)).unitsOf p = _
    rw [if_neg (fun hcc => hax hcc.1)]
  have hinner : ∑ b ∈ Finset.range g.height \ {y},
      ((g.setTileN x y t).tiles x b).unitsOf p =
      ∑ b ∈ Finset.range g.height \ {y}, (g.tiles x b).unitsOf p := by
    refine Finset.sum_congr rfl fun b hb => ?_
    have hby : b ≠ y := by
      intro hcc
      subst hcc
      exact (Finset.mem_sdiff.mp hb).2 (Finset.mem_singleton.mpr rfl)
    show ((if x = x ∧ b = y then t else g.tiles x b)).unitsOf p = _
    rw [if_neg (fun hcc => hby hcc.2)]
  have hcenter : ((g.setTileN x y t).tiles x y).unitsOf p = t.unitsOf p := by
    show ((if x = x ∧ y = y then t else g.tiles x y)).unitsOf p = _
    rw [if_pos ⟨rfl, rfl⟩]
  rw [houter, hinner, hcenter]
  omega

/-- Fold preservation of an invariant and a conserved quantity. -/
lemma foldl_preserve {α : Type} (P : Grid → Prop) (S : Grid → ℕ)
    (f : Grid → α → Grid) (l : List α)
    (h : ∀ g a, a ∈ l → P g → P (f g a) ∧ S (f g a) = S g) :
    ∀ g, P g → P (l.foldl f g) ∧ S (l.foldl f g) = S g := by
  induction l with
  | nil => exact fun g hg => ⟨hg, rfl⟩
  | cons a as ih =>
    intro g hg
    obtain ⟨h1, h2⟩ := h g a (by simp) hg
    obtain ⟨h3, h4⟩ := ih (fun g2 b hb => h g2 b (by simp [hb])) (f g a) h1
    exact ⟨h3, h4.trans h2⟩

lemma dirs_ne_zero (dir : Pos) (h : dir ∈ DIRS) : dir ≠ (0, 0) := by
  fin_cases h <;> decide

/-- The transferred amount is non-negative, at most the source's current
stock and at most the room left at the destination. -/
lemma migDpop_bounds (g : Grid) (fg : FlagGrid) (p i j ip : ℕ) (dir : Pos) (r : ℚ)
    (land : HabitLand) (nu : Units) (no : ℕ)
    (hnb : g.tileAt ((i : ℤ) + dir.1, (j : ℤ) + dir.2) = some (.habitable land nu no))
    (hb : unitsBounded g) :
    0 ≤ migDpop g fg p i j ip dir r ∧
    migDpop g fg p i j ip dir r ≤ ((g.tiles i j).unitsOf p : ℤ) ∧
    migDpop g fg p i j ip dir r ≤ (MAX_POPULATION : ℤ) - nu p := by
  have hnu : (((g.tileAt ((i : ℤ) + dir.1, (j : ℤ) + dir.2)).map Tile.unitsOf).getD
      zeroUnits) p = nu p := by
    rw [hnb]
    rfl
  have hcap : nu p ≤ MAX_POPULATION := by
    have := hb ((i : ℤ) + dir.1).toNat ((j : ℤ) + dir.2).toNat p
    unfold Grid.tileAt at hnb
    split at hnb
    all_goals first
      | exact Option.noConfusion hnb
      | (rw [Option.some.inj hnb] at this; exact this)
  have hrnd : 0 ≤ rndRound (MOVE * ip +
      CALL_MOVE * (max 0 (callAt fg ((i : ℤ) + dir.1, (j : ℤ) + dir.2) -
        callAt fg ((i : ℤ), (j : ℤ)))) * ip) r := by
    apply rndRound_nonneg
    have h1 : (0 : ℚ) ≤ MOVE * ip := by
      unfold MOVE
      positivity
    have h2 : (0 : ℚ) ≤ CALL_MOVE * (max 0 (callAt fg ((i : ℤ) + dir.1, (j : ℤ) + dir.2) -
        callAt fg ((i : ℤ), (j : ℤ)))) * ip := by
      unfold CALL_MOVE
      have hm : (0 : ℚ) ≤ ((max 0 (callAt fg ((i : ℤ) + dir.1, (j : ℤ) + dir.2) -
          callAt fg ((i : ℤ), (j : ℤ))) : ℤ) : ℚ) := by
        have := le_max_left (0 : ℤ) (callAt fg ((i : ℤ) + dir.1, (j : ℤ) + dir.2) -
          callAt fg ((i : ℤ), (j : ℤ)))
        exact_mod_cast this
      positivity
    linarith
  unfold migDpop
  dsimp only
  rw [hnu]
  refine ⟨?_, ?_, ?_⟩
  · refine le_min (le_min hrnd (by positivity)) ?_
    have hmp : MAX_POPULATION = 499 := rfl
    omega
  · exact le_trans (min_le_left _ _) (min_le_right _ _)
  · exact min_le_right _ _

/-- One neighbor visit preserves the population bound, the dimensions,
and every player's grid-wide total. -/
lemma migApply_conserve (g : Grid) (fg : FlagGrid) (p i j ip : ℕ) (dir : Pos) (r : ℚ)
    (hi : i < g.width) (hj : j < g.height) (hdir : dir ∈ DIRS) (hb : unitsBounded g) :
    unitsBounded (migApply g fg p i j ip dir r) ∧
    (migApply g fg p i j ip dir r).width = g.width ∧
    (migApply g fg p i j ip dir r).height = g.height ∧
    ∀ q, gridSumP (migApply g fg p i j ip dir r) q = gridSumP g q := by
  rcases hnb : g.tileAt ((i : ℤ) + dir.1, (j : ℤ) + dir.2) with _ | t
  · have hred : migApply g fg p i j ip dir r = g := by
      unfold migApply
      rw [hnb]
    rw [hred]
    exact ⟨hb, rfl, rfl, fun q => rfl⟩
  rcases t with _ | _ | m | ⟨land, nu, no⟩
  · have hred : migApply g fg p i j ip dir r = g := by
      unfold migApply
      rw [hnb]
    rw [hred]
    exact ⟨hb, rfl, rfl, fun q => rfl⟩
  · have hred : migApply g fg p i j ip dir r = g := by
      unfold migApply
      rw [hnb]
    rw [hred]
    exact ⟨hb, rfl, rfl, fun q => rfl⟩
  · have hred : migApply g fg p i j ip dir r = g := by
      unfold migApply
      rw [hnb]
    rw [hred]
    exact ⟨hb, rfl, rfl, fun q => rfl⟩
  obtain ⟨hd0, hdsrc, hdcap⟩ := migDpop_bounds g fg p i j ip dir r land nu no hnb hb
  set dpop := migDpop g fg p i j ip dir r with hdpop
  have hred : migApply g fg p i j ip dir r =
      addUnits (addUnits g ((i : ℤ) + dir.1).toNat ((j : ℤ) + dir.2).toNat p dpop)
        i j p (-dpop) := by
    unfold migApply
    rw [hnb]
  rw [hred]
  -- neighbor coordinates and facts
  have hposx : 0 ≤ (i : ℤ) + dir.1 ∧ (i : ℤ) + dir.1 < (g.width : ℤ) ∧
      0 ≤ (j : ℤ) + dir.2 ∧ (j : ℤ) + dir.2 < (g.height : ℤ) := by
    unfold Grid.tileAt at hnb
    split at hnb
    all_goals first
      | assumption
      | exact Option.noConfusion hnb
  have htnb : g.tiles ((i : ℤ) + dir.1).toNat ((j : ℤ) + dir.2).toNat =
      Tile.habitable land nu no := by
    unfold Grid.tileAt at hnb
    split at hnb
    all_goals first
      | exact Option.some.inj hnb
      | exact Option.noConfusion hnb
  have hne : ¬(((i : ℤ) + dir.1).toNat = i ∧ ((j : ℤ) + dir.2).toNat = j) := by
    intro ⟨hcc1, hcc2⟩
    have hd := dirs_ne_zero dir hdir
    have h1 : dir.1 = 0 := by omega
    have h2 : dir.2 = 0 := by omega
    have heq : dir = (0, 0) := by
      rw [Prod.ext_iff]
      exact ⟨h1, h2⟩
    exact hd heq
  have hnbx : ((i : ℤ) + dir.1).toNat < g.width := by omega
  have hnby : ((j : ℤ) + dir.2).toNat < g.height := by omega
  -- the two updates
  have hg1 : addUnits g ((i : ℤ) + dir.1).toNat ((j : ℤ) + dir.2).toNat p dpop =
      g.setTileN ((i : ℤ) + dir.1).toNat ((j : ℤ) + dir.2).toNat
        (.habitable land (Function.update nu p ((nu p + dpop).toNat)) no) := by
    unfold addUnits
    rw [htnb]
  rw [hg1]
  set g1 := g.setTileN ((i : ℤ) + dir.1).toNat ((j : ℤ) + dir.2).toNat
    (.habitable land (Function.update nu p ((nu p + dpop).toNat)) no) with hg1def
  have hg1tiles : ∀ a b, g1.tiles a b =
      if a = ((i : ℤ) + dir.1).toNat ∧ b = ((j : ℤ) + dir.2).toNat then
        Tile.habitable land (Function.update nu p ((nu p + dpop).toNat)) no
      else g.tiles a b := fun a b => rfl
  have hb1 : unitsBounded g1 := by
    intro a b q
    rw [hg1tiles]
    split_ifs with hab
    · show (Function.update nu p ((nu p + dpop).toNat)) q ≤ MAX_POPULATION
      by_cases hqp : q = p
      · subst hqp
        rw [Function.update_same]
        unfold MAX_POPULATION at hdcap ⊢
        omega
      · rw [Function.update_noteq hqp]
        have := hb ((i : ℤ) + dir.1).toNat ((j : ℤ) + dir.2).toNat q
        rw [htnb] at this
        exact this
    · exact hb a b q
  have hsum1 : ∀ q, gridSumP g1 q + nu q =
      gridSumP g q + (Function.update nu p ((nu p + dpop).toNat)) q := by
    intro q
    have := gridSumP_set g ((i : ℤ) + dir.1).toNat ((j : ℤ) + dir.2).toNat hnbx hnby
      (.habitable land (Function.update nu p ((nu p + dpop).toNat)) no) q
    rw [htnb] at this
    exact this
  have hg1src : g1.tiles i j = g.tiles i j := by
    rw [hg1tiles]
    rw [if_neg (by omega)]
  -- source update
  rcases hsrc : g.tiles i j with _ | _ | m2 | ⟨land2, u2, o2⟩
  -- non-habitable source: pop = 0 forces dpop = 0; the subtraction is a no-op
  case void =>
    have hpop0 : (g.tiles i j).unitsOf p = 0 := by rw [hsrc]; rfl
    have hd00 : dpop = 0 := by
      rw [hpop0] at hdsrc
      omega
    have hg2 : addUnits g1 i j p (-dpop) = g1 := by
      unfold addUnits
      rw [hg1src, hsrc]
    rw [hg2]
    refine ⟨hb1, rfl, rfl, fun q => ?_⟩
    have hsq := hsum1 q
    by_cases hqp : q = p
    · subst hqp
      rw [Function.update_same] at hsq
      have hnn : (nu q + dpop).toNat = nu q := by omega
      omega
    · rw [Function.update_noteq hqp] at hsq
      omega
  case mountain =>
    have hpop0 : (g.tiles i j).unitsOf p = 0 := by rw [hsrc]; rfl
    have hd00 : dpop = 0 := by
      rw [hpop0] at hdsrc
      omega
    have hg2 : addUnits g1 i j p (-dpop) = g1 := by
      unfold addUnits
      rw [hg1src, hsrc]
    rw [hg2]
    refine ⟨hb1, rfl, rfl, fun q => ?_⟩
    have hsq := hsum1 q
    by_cases hqp : q = p
    · subst hqp
      rw [Function.update_same] at hsq
      have hnn : (nu q + dpop).toNat = nu q := by omega
      omega
    · rw [Function.update_noteq hqp] at hsq
      omega
  case mine =>
    have hpop0 : (g.tiles i j).unitsOf p = 0 := by rw [hsrc]; rfl
    have hd00 : dpop = 0 := by
      rw [hpop0] at hdsrc
      omega
    have hg2 : addUnits g1 i j p (-dpop) = g1 := by
      unfold addUnits
      rw [hg1src, hsrc]
    rw [hg2]
    refine ⟨hb1, rfl, rfl, fun q => ?_⟩
    have hsq := hsum1 q
    by_cases hqp : q = p
    · subst hqp
      rw [Function.update_same] at hsq
      have hnn : (nu q + dpop).toNat = nu q := by omega
      omega
    · rw [Function.update_noteq hqp] at hsq
      omega
  -- habitable source
  have hg2 : addUnits g1 i j p (-dpop) =
      g1.setTileN i j (.habitable land2 (Function.update u2 p ((u2 p + -dpop).toNat)) o2) := by
    unfold addUnits
    rw [hg1src, hsrc]
  rw [hg2]
  have hpop : (g.tiles i j).unitsOf p = u2 p := by rw [hsrc]; rfl
  have hb2 : unitsBounded (g1.setTileN i j
      (.habitable land2 (Function.update u2 p ((u2 p + -dpop).toNat)) o2)) := by
    intro a b q
    show (if a = i ∧ b = j then
        Tile.habitable land2 (Function.update u2 p ((u2 p + -dpop).toNat)) o2
      else g1.tiles a b).unitsOf q ≤ MAX_POPULATION
    split_ifs with hab
    · show (Function.update u2 p ((u2 p + -dpop).toNat)) q ≤ MAX_POPULATION
      by_cases hqp : q = p
      · subst hqp
        rw [Function.update_same]
        have := hb i j q
        rw [hsrc] at this
        have h2 : u2 q ≤ MAX_POPULATION := this
        omega
      · rw [Function.update_noteq hqp]
        have := hb i j q
        rw [hsrc] at this
        exact this
    · exact hb1 a b q
  refine ⟨hb2, rfl, rfl, fun q => ?_⟩
  have hsum2 : gridSumP (g1.setTileN i j
      (.habitable land2 (Function.update u2 p ((u2 p + -dpop).toNat)) o2)) q +
      (g1.tiles i j).unitsOf q =
      gridSumP g1 q + (Function.update u2 p ((u2 p + -dpop).toNat)) q := by
    have := gridSumP_set g1 i j (by exact hi) (by exact hj)
      (.habitable land2 (Function.update u2 p ((u2 p + -dpop).toNat)) o2) q
    exact this
  rw [hg1src, hsrc] at hsum2
  have hs1 := hsum1 q
  by_cases hqp : q = p
  · subst hqp
    rw [Function.update_same] at hs1 hsum2
    have he1 : (nu q + dpop).toNat = nu q + dpop.toNat := by omega
    have he2 : (u2 q + -dpop).toNat = u2 q - dpop.toNat := by
      rw [hpop] at hdsrc
      omega
    have hszle : dpop.toNat ≤ u2 q := by
      rw [hpop] at hdsrc
      omega
    show gridSumP _ q = gridSumP g q
    have hsu : (Tile.habitable land2 u2 o2).unitsOf q = u2 q := rfl
    rw [hsu] at hsum2
    omega
  · rw [Function.update_noteq hqp] at hs1 hsum2
    have hsu : (Tile.habitable land2 u2 o2).unitsOf q = u2 q := rfl
    rw [hsu] at hsum2
    omega

lemma dirs_getD_mem (n : ℕ) : DIRS.getD (n % 6) (0, 0) ∈ DIRS := by
  have h : n % 6 < 6 := Nat.mod_lt _ (by norm_num)
  set m := n % 6 with hm
  clear_value m
  interval_cases m <;> decide

lemma mem_scanList {n x : ℕ} {r : Bool} (h : x ∈ scanList n r) : x < n := by
  unfold scanList at h
  split at h
  · rw [List.mem_reverse] at h
    exact List.mem_range.mp h
  · exact List.mem_range.mp h

lemma migK_conserve (g : Grid) (fg : FlagGrid) (p i j ip kshift : ℕ)
    (rand : ℕ → ℚ) (hi : i < g.width) (hj : j < g.height) (hb : unitsBounded g) :
    (unitsBounded (migK g fg p i j ip kshift rand) ∧
      (migK g fg p i j ip kshift rand).width = g.width ∧
      (migK g fg p i j ip kshift rand).height = g.height) ∧
    ∀ q, gridSumP (migK g fg p i j ip kshift rand) q = gridSumP g q := by
  have hstep : ∀ q (gcur : Grid) (k : ℕ), k ∈ List.range 6 →
      (unitsBounded gcur ∧ gcur.width = g.width ∧ gcur.height = g.height) →
      ((unitsBounded (migApply gcur fg p i j ip (DIRS.getD ((k + kshift) % 6) (0, 0))
          (rand k)) ∧
        (migApply gcur fg p i j ip (DIRS.getD ((k + kshift) % 6) (0, 0))
          (rand k)).width = g.width ∧
        (migApply gcur fg p i j ip (DIRS.getD ((k + kshift) % 6) (0, 0))
          (rand k)).height = g.height) ∧
      gridSumP (migApply gcur fg p i j ip (DIRS.getD ((k + kshift) % 6) (0, 0))
        (rand k)) q = gridSumP gcur q) := by
    intro q gcur k hk ⟨hbc, hwc, hhc⟩
    obtain ⟨h1, h2, h3, h4⟩ := migApply_conserve gcur fg p i j ip
      (DIRS.getD ((k + kshift) % 6) (0, 0)) (rand k)
      (by omega) (by omega) (dirs_getD_mem _) hbc
    exact ⟨⟨h1, by omega, by omega⟩, h4 q⟩
  constructor
  · exact (foldl_preserve
      (fun g2 => unitsBounded g2 ∧ g2.width = g.width ∧ g2.height = g.height)
      (fun g2 => gridSumP g2 0)
      (fun gcur k => migApply gcur fg p i j ip (DIRS.getD ((k + kshift) % 6) (0, 0))
        (rand k))
      (List.range 6)
      (fun gc a ha hp => ⟨(hstep 0 gc a ha hp).1, (hstep 0 gc a ha hp).2⟩)
      g ⟨hb, rfl, rfl⟩).1
  · intro q
    exact (foldl_preserve
      (fun g2 => unitsBounded g2 ∧ g2.width = g.width ∧ g2.height = g.height)
      (fun g2 => gridSumP g2 q)
      (fun gcur k => migApply gcur fg p i j ip (DIRS.getD ((k + kshift) % 6) (0, 0))
        (rand k))
      (List.range 6)
      (fun gc a ha hp => ⟨(hstep q gc a ha hp).1, (hstep q gc a ha hp).2⟩)
      g ⟨hb, rfl, rfl⟩).2

lemma migP_conserve (g : Grid) (fgs : ℕ → FlagGrid) (i j : ℕ)
    (kShift : ℕ → ℕ) (rand : ℕ → ℕ → ℚ)
    (hi : i < g.width) (hj : j < g.height) (hb : unitsBounded g) :
    (unitsBounded (migP g fgs i j kShift rand) ∧
      (migP g fgs i j kShift rand).width = g.width ∧
      (migP g fgs i j kShift rand).height = g.height) ∧
    ∀ q, gridSumP (migP g fgs i j kShift rand) q = gridSumP g q := by
  have hstep : ∀ q (gcur : Grid) (p : ℕ), p ∈ (List.range 7).map (· + 1) →
      (unitsBounded gcur ∧ gcur.width = g.width ∧ gcur.height = g.height) →
      ((unitsBounded (migK gcur (fgs p) p i j ((gcur.tiles i j).unitsOf p) (kShift p)
          (rand p)) ∧
        (migK gcur (fgs p) p i j ((gcur.tiles i j).unitsOf p) (kShift p)
          (rand p)).width = g.width ∧
        (migK gcur (fgs p) p i j ((gcur.tiles i j).unitsOf p) (kShift p)
          (rand p)).height = g.height) ∧
      gridSumP (migK gcur (fgs p) p i j ((gcur.tiles i j).unitsOf p) (kShift p)
        (rand p)) q = gridSumP gcur q) := by
    intro q gcur p hp ⟨hbc, hwc, hhc⟩
    obtain ⟨⟨h1, h2, h3⟩, h4⟩ := migK_conserve gcur (fgs p) p i j
      ((gcur.tiles i j).unitsOf p) (kShift p) (rand p) (by omega) (by omega) hbc
    exact ⟨⟨h1, by omega, by omega⟩, h4 q⟩
  constructor
  · exact (foldl_preserve
      (fun g2 => unitsBounded g2 ∧ g2.width = g.width ∧ g2.height = g.height)
      (fun g2 => gridSumP g2 0)
      (fun gcur p => migK gcur (fgs p) p i j ((gcur.tiles i j).unitsOf p) (kShift p)
        (rand p))
      ((List.range 7).map (· + 1))
      (fun gc a ha hp => ⟨(hstep 0 gc a ha hp).1, (hstep 0 gc a ha hp).2⟩)
      g ⟨hb, rfl, rfl⟩).1
  · intro q
    exact (foldl_preserve
      (fun g2 => unitsBounded g2 ∧ g2.width = g.width ∧ g2.height = g.height)
      (fun g2 => gridSumP g2 q)
      (fun gcur p => migK gcur (fgs p) p i j ((gcur.tiles i j).unitsOf p) (kShift p)
        (rand p))
      ((List.range 7).map (· + 1))
      (fun gc a ha hp => ⟨(hstep q gc a ha hp).1, (hstep q gc a ha hp).2⟩)
      g ⟨hb, rfl, rfl⟩).2

set_option maxHeartbeats 2000000 in
/-- C10.  The migration phase conserves every player's grid-wide total:
each per-neighbor amount is non-negative, at most the source's current
stock and at most the room at the destination, it is subtracted from the
source exactly as it is added to the destination, and the pass leaves
`Σ_tiles units[p]` unchanged for every player whatever the random scan
directions, direction shifts and rounding draws. -/
theorem migration_conservation (g : Grid) (fgs : ℕ → FlagGrid) (revI revJ : Bool)
    (kShift : ℕ → ℕ → ℕ → ℕ) (rand : ℕ → ℕ → ℕ → ℕ → ℚ)
    (hb : unitsBounded g) :
    (∀ p, gridSumP (migration g fgs revI revJ kShift rand) p = gridSumP g p) ∧
    (∀ (fg : FlagGrid) (p i j ip : ℕ) (dir : Pos) (r : ℚ) land nu no,
      g.tileAt ((i : ℤ) + dir.1, (j : ℤ) + dir.2) = some (.habitable land nu no) →
      0 ≤ migDpop g fg p i j ip dir r ∧
      migDpop g fg p i j ip dir r ≤ ((g.tiles i j).unitsOf p : ℤ) ∧
      migDpop g fg p i j ip dir r ≤ (MAX_POPULATION : ℤ) - nu p) ∧
    (∀ (fg : FlagGrid) (p i j ip : ℕ) (dir : Pos) (r : ℚ) land nu no,
      g.tileAt ((i : ℤ) + dir.1, (j : ℤ) + dir.2) = some (.habitable land nu no) →
      migApply g fg p i j ip dir r =
        addUnits (addUnits g ((i : ℤ) + dir.1).toNat ((j : ℤ) + dir.2).toNat p
          (migDpop g fg p i j ip dir r)) i j p (-(migDpop g fg p i j ip dir r))) := by
  refine ⟨?_, ?_, ?_⟩
  · intro p
    unfold migration
    have hfold := foldl_preserve
      (fun g2 => unitsBounded g2 ∧ g2.width = g.width ∧ g2.height = g.height)
      (fun g2 => gridSumP g2 p)
      (fun gcur c => migP gcur fgs c.1 c.2 (kShift c.1 c.2) (rand c.1 c.2))
      (cellList g revI revJ)
      (fun gcur c hc hp => by
        obtain ⟨hbc, hwc, hhc⟩ := hp
        have hcb : c.1 < g.width ∧ c.2 < g.height := by
          unfold cellList at hc
          rw [List.mem_flatMap] at hc
          obtain ⟨a, ha, hc2⟩ := hc
          rw [List.mem_map] at hc2
          obtain ⟨b, hb2, rfl⟩ := hc2
          exact ⟨mem_scanList ha, mem_scanList hb2⟩
        obtain ⟨⟨h1, h2, h3⟩, h4⟩ := migP_conserve gcur fgs c.1 c.2 (kShift c.1 c.2)
          (rand c.1 c.2) (by rw [hwc]; exact hcb.1) (by rw [hhc]; exact hcb.2) hbc
        exact ⟨⟨h1, h2.trans hwc, h3.trans hhc⟩, h4 p⟩)
      g ⟨hb, rfl, rfl⟩
    exact hfold.2
  · intro fg p i j ip dir r land nu no hnb
    exact migDpop_bounds g fg p i j ip dir r land nu no hnb hb
  · intro fg p i j ip dir r land nu no hnb
    unfold migApply
    rw [hnb]

/-- Grid for the C10 witness: two habitable tiles, all ten units of
player 1 on each. -/
def wGridC10 : Grid :=
  ⟨2, 1, fun _ _ => .habitable .grassland (fun p => if p = 1 then 10 else 0) 1⟩

/-- Flag grids for the C10 witness: everything flagged with call 1. -/
def wFgsC10 : ℕ → FlagGrid := fun _ => ⟨2, 1, fun _ _ => true, fun _ _ => 1⟩

/-- Witness for C10: on a concrete bounded grid the migration pass leaves
every player's total population unchanged. -/
theorem migration_conservation_witness :
    unitsBounded wGridC10 ∧
    ∀ p, gridSumP (migration wGridC10 wFgsC10 false false (fun _ _ _ => 0)
      (fun _ _ _ _ => 0)) p = gridSumP wGridC10 p := by
  have hbw : unitsBounded wGridC10 := by
    intro x y q
    show (if q = 1 then 10 else 0) ≤ MAX_POPULATION
    split <;> decide
  exact ⟨hbw, (migration_conservation wGridC10 wFgsC10 false false (fun _ _ _ => 0)
    (fun _ _ _ _ => 0) hbw).1⟩

/-- One cell write of an `i32` scratch matrix (`m[x][y] = w`). -/
def upd2 (f : ℕ → ℕ → ℤ) (x y : ℕ) (w : ℤ) : ℕ → ℕ → ℤ :=
  fun a b => if a = x ∧ b = y then w else f a b

/-- The chain of values a `spread` recursion passes downward from `val`:
repeated Rust division by two (truncating), ending at zero. -/
def chainList (val : ℤ) : List ℤ :=
  if val = 0 then [0] else val :: chainList (val.tdiv 2)
termination_by val.natAbs
decreasing_by
  rename_i h
  rw [Int.natAbs_tdiv]
  show val.natAbs / 2 < val.natAbs
  have h3 : val.natAbs ≠ 0 := fun hz => h (Int.natAbs_eq_zero.mp hz)
  omega

/-- The in-bounds cells of a grid. -/
def allCells (g : Grid) : Finset (ℕ × ℕ) := Finset.range g.width ×ˢ Finset.range g.height

/-- Termination measure for `spread`: across all cells, how many values of
the chain from `val` still exceed the scratch entry there. -/
def spreadMeasure (g : Grid) (u : ℕ → ℕ → ℤ) (val : ℤ) : ℕ :=
  ∑ c ∈ allCells g, (chainList val).countP fun w => decide (u c.1 c.2 < w)

/-- `Grid::spread` from `src/grid.rs`, with an explicit recursion budget:
`none` means the budget ran out before the recursion finished, `some`
carries the final pair of scratch matrices `(u, v)`.  A call stops at a
missing or non-habitable tile and whenever `d = val - u[x][y]` is not
positive; otherwise it sets `v[x][y] = max(0, v[x][y] + d * factor)`,
`u[x][y] += d` and recurses on the six neighbors with `val / 2`
(truncating division). -/
def spreadF (g : Grid) (fuel : ℕ) (u v : ℕ → ℕ → ℤ) (p : Pos) (val factor : ℤ) :
    Option ((ℕ → ℕ → ℤ) × (ℕ → ℕ → ℤ)) :=
  match fuel with
  | 0 => none
  | fuel + 1 =>
    match g.tileAt p with
    | none => some (u, v)
    | some t =>
      if t.isHabitable then
        if 0 < val - u p.1.toNat p.2.toNat then
          DIRS.foldl
            (fun acc dir => acc.bind fun uv =>
              spreadF g fuel uv.1 uv.2 (p.1 + dir.1, p.2 + dir.2) (val.tdiv 2) factor)
            (some
              (upd2 u p.1.toNat p.2.toNat (val - u p.1.toNat p.2.toNat + u p.1.toNat p.2.toNat),
               upd2 v p.1.toNat p.2.toNat
                 (max 0 (v p.1.toNat p.2.toNat + (val - u p.1.toNat p.2.toNat) * factor))))
        else some (u, v)
      else some (u, v)

lemma chainList_zero : chainList 0 = [0] := by
  unfold chainList
  simp

lemma chainList_of_ne (val : ℤ) (h : val ≠ 0) :
    chainList val = val :: chainList (val.tdiv 2) := by
  unfold chainList
  rw [if_neg h]
  conv_lhs => rw [chainList]

lemma spreadF_stop_none (g : Grid) (fuel : ℕ) (u v : ℕ → ℕ → ℤ) (p : Pos) (val factor : ℤ)
    (h : g.tileAt p = none) : spreadF g (fuel + 1) u v p val factor = some (u, v) := by
  unfold spreadF
  rw [h]

lemma spreadF_stop_nonhab (g : Grid) (fuel : ℕ) (u v : ℕ → ℕ → ℤ) (p : Pos) (val factor : ℤ)
    (t : Tile) (h : g.tileAt p = some t) (hh : t.isHabitable = false) :
    spreadF g (fuel + 1) u v p val factor = some (u, v) := by
  unfold spreadF
  rw [h]
  show (if t.isHabitable then _ else some (u, v)) = some (u, v)
  rw [hh]
  simp

lemma spreadF_stop_low (g : Grid) (fuel : ℕ) (u v : ℕ → ℕ → ℤ) (p : Pos) (val factor : ℤ)
    (t : Tile) (h : g.tileAt p = some t) (hh : t.isHabitable = true)
    (hd : val - u p.1.toNat p.2.toNat ≤ 0) :
    spreadF g (fuel + 1) u v p val factor = some (u, v) := by
  unfold spreadF
  rw [h]
  show (if t.isHabitable then _ else some (u, v)) = some (u, v)
  rw [hh]
  simp only [if_true]
  rw [if_neg (by omega)]

lemma spreadF_go (g : Grid) (fuel : ℕ) (u v : ℕ → ℕ → ℤ) (p : Pos) (val factor : ℤ)
    (t : Tile) (h : g.tileAt p = some t) (hh : t.isHabitable = true)
    (hd : 0 < val - u p.1.toNat p.2.toNat) :
    spreadF g (fuel + 1) u v p val factor =
      DIRS.foldl
        (fun acc dir => acc.bind fun uv =>
          spreadF g fuel uv.1 uv.2 (p.1 + dir.1, p.2 + dir.2) (val.tdiv 2) factor)
        (some
          (upd2 u p.1.toNat p.2.toNat (val - u p.1.toNat p.2.toNat + u p.1.toNat p.2.toNat),
           upd2 v p.1.toNat p.2.toNat
             (max 0 (v p.1.toNat p.2.toNat + (val - u p.1.toNat p.2.toNat) * factor)))) := by
  conv_lhs => rw [spreadF]
  rw [h]
  show (if t.isHabitable then _ else some (u, v)) = _
  rw [hh]
  simp only [if_true]
  rw [if_pos hd]

lemma spreadMeasure_mono (g : Grid) (u u2 : ℕ → ℕ → ℤ) (val : ℤ)
    (h : ∀ x y, u x y ≤ u2 x y) : spreadMeasure g u2 val ≤ spreadMeasure g u val := by
  unfold spreadMeasure
  refine Finset.sum_le_sum fun c _ => ?_
  refine List.countP_mono_left fun w _ hw => ?_
  exact decide_eq_true (lt_of_le_of_lt (h c.1 c.2) (of_decide_eq_true hw))

lemma upd2_ge (u : ℕ → ℕ → ℤ) (x y : ℕ) (w : ℤ) (hw : u x y ≤ w) :
    ∀ a b, u a b ≤ upd2 u x y w a b := by
  intro a b
  unfold upd2
  split
  · rename_i hab
    obtain ⟨ha, hb⟩ := hab
    subst ha
    subst hb
    exact hw
  · exact le_refl _

lemma spreadMeasure_update_lt (g : Grid) (u : ℕ → ℕ → ℤ) (val : ℤ) (x y : ℕ)
    (hmem : (x, y) ∈ allCells g) (hlt : u x y < val) :
    spreadMeasure g (upd2 u x y val) (val.tdiv 2) < spreadMeasure g u val := by
  have hup := upd2_ge u x y val (le_of_lt hlt)
  rcases eq_or_ne val 0 with h0 | h0
  · subst h0
    rw [Int.zero_tdiv]
    unfold spreadMeasure
    refine Finset.sum_lt_sum (fun c _ => List.countP_mono_left fun w _ hw => ?_)
      ⟨(x, y), hmem, ?_⟩
    · exact decide_eq_true (lt_of_le_of_lt (hup c.1 c.2) (of_decide_eq_true hw))
    · rw [chainList_zero]
      simp [List.countP_cons, upd2, hlt]
  · have hsplit : ∀ u3 : ℕ → ℕ → ℤ, spreadMeasure g u3 val =
        (∑ c ∈ allCells g, if u3 c.1 c.2 < val then 1 else 0) +
          spreadMeasure g u3 (val.tdiv 2) := by
      intro u3
      unfold spreadMeasure
      rw [← Finset.sum_add_distrib]
      refine Finset.sum_congr rfl fun c _ => ?_
      rw [chainList_of_ne val h0, List.countP_cons]
      conv_lhs => rw [Nat.add_comm]
      congr 1
      simp
    have hm1 : spreadMeasure g (upd2 u x y val) (val.tdiv 2) ≤ spreadMeasure g u (val.tdiv 2) :=
      spreadMeasure_mono g u _ (val.tdiv 2) hup
    have h1 : 0 < ∑ c ∈ allCells g, if u c.1 c.2 < val then 1 else 0 := by
      refine Finset.sum_pos' (fun i _ => Nat.zero_le _) ⟨(x, y), hmem, ?_⟩
      simp [hlt]
    rw [hsplit u]
    omega

lemma spreadF_total (g : Grid) : ∀ (fuel : ℕ) (u v : ℕ → ℕ → ℤ) (p : Pos) (val factor : ℤ),
    spreadMeasure g u val < fuel →
    ∃ u2 v2, spreadF g fuel u v p val factor = some (u2, v2) ∧ ∀ x y, u x y ≤ u2 x y := by
  intro fuel
  induction fuel with
  | zero => exact fun u v p val factor h => absurd h (Nat.not_lt_zero _)
  | succ fuel ih =>
    intro u v p val factor h
    rcases hg : g.tileAt p with _ | t
    · exact ⟨u, v, spreadF_stop_none g fuel u v p val factor hg, fun x y => le_refl _⟩
    rcases Bool.eq_false_or_eq_true t.isHabitable with hh | hh
    swap
    · exact ⟨u, v, spreadF_stop_nonhab g fuel u v p val factor t hg hh, fun x y => le_refl _⟩
    rcases le_or_lt val (u p.1.toNat p.2.toNat) with hd | hd
    · exact ⟨u, v, spreadF_stop_low g fuel u v p val factor t hg hh (by omega),
        fun x y => le_refl _⟩
    have hmem : (p.1.toNat, p.2.toNat) ∈ allCells g := by
      unfold Grid.tileAt at hg
      by_cases hbnd : 0 ≤ p.1 ∧ p.1 < (g.width : ℤ) ∧ 0 ≤ p.2 ∧ p.2 < (g.height : ℤ)
      · unfold allCells
        rw [Finset.mem_product, Finset.mem_range, Finset.mem_range]
        constructor
        · omega
        · omega
      · rw [if_neg hbnd] at hg
        exact Option.noConfusion hg
    have hdec := spreadMeasure_update_lt g u val p.1.toNat p.2.toNat hmem hd
    have hfold : ∀ (l : List Pos) (u1 v1 : ℕ → ℕ → ℤ),
        spreadMeasure g u1 (val.tdiv 2) < fuel →
        ∃ u2 v2,
          l.foldl (fun acc dir => acc.bind fun uv =>
              spreadF g fuel uv.1 uv.2 (p.1 + dir.1, p.2 + dir.2) (val.tdiv 2) factor)
            (some (u1, v1)) = some (u2, v2) ∧ ∀ x y, u1 x y ≤ u2 x y := by
      intro l
      induction l with
      | nil => exact fun u1 v1 _ => ⟨u1, v1, rfl, fun x y => le_refl _⟩
      | cons dir rest ihl =>
        intro u1 v1 hm
        obtain ⟨ua, va, hra, hma⟩ := ih u1 v1 (p.1 + dir.1, p.2 + dir.2) (val.tdiv 2) factor hm
        obtain ⟨u2, v2, hrb, hmb⟩ := ihl ua va
          (lt_of_le_of_lt (spreadMeasure_mono g u1 ua (val.tdiv 2) hma) hm)
        refine ⟨u2, v2, ?_, fun x y => le_trans (hma x y) (hmb x y)⟩
        rw [List.foldl_cons]
        simp only [Option.some_bind]
        rw [hra]
        exact hrb
    have hval : val - u p.1.toNat p.2.toNat + u p.1.toNat p.2.toNat = val := by ring
    obtain ⟨u2, v2, hf, hmono⟩ := hfold DIRS (upd2 u p.1.toNat p.2.toNat val)
      (upd2 v p.1.toNat p.2.toNat
        (max 0 (v p.1.toNat p.2.toNat + (val - u p.1.toNat p.2.toNat) * factor)))
      (by omega)
    refine ⟨u2, v2, ?_, ?_⟩
    · rw [spreadF_go g fuel u v p val factor t hg hh (by omega), hval]
      exact hf
    · intro x y
      exact le_trans (upd2_ge u p.1.toNat p.2.toNat val (le_of_lt hd) x y) (hmono x y)

/-- C8.  `Grid::spread` terminates on every input: some recursion budget
suffices.  A call at a missing or non-habitable tile returns at once, as
does a call whose difference `d = val - u[x][y]` is not positive; a call
with `d > 0` updates the two scratch cells and recurses on exactly the
six neighbors with value `val / 2` (truncating division). -/
theorem spread_terminates (g : Grid) (u v : ℕ → ℕ → ℤ) (p : Pos) (val factor : ℤ) :
    (∃ fuel u2 v2, spreadF g fuel u v p val factor = some (u2, v2)) ∧
    (∀ fuel, g.tileAt p = none → spreadF g (fuel + 1) u v p val factor = some (u, v)) ∧
    (∀ fuel t, g.tileAt p = some t → t.isHabitable = false →
      spreadF g (fuel + 1) u v p val factor = some (u, v)) ∧
    (∀ fuel t, g.tileAt p = some t → t.isHabitable = true →
      val - u p.1.toNat p.2.toNat ≤ 0 →
      spreadF g (fuel + 1) u v p val factor = some (u, v)) ∧
    (∀ fuel t, g.tileAt p = some t → t.isHabitable = true →
      0 < val - u p.1.toNat p.2.toNat →
      spreadF g (fuel + 1) u v p val factor =
        DIRS.foldl
          (fun acc dir => acc.bind fun uv =>
            spreadF g fuel uv.1 uv.2 (p.1 + dir.1, p.2 + dir.2) (val.tdiv 2) factor)
          (some
            (upd2 u p.1.toNat p.2.toNat (val - u p.1.toNat p.2.toNat + u p.1.toNat p.2.toNat),
             upd2 v p.1.toNat p.2.toNat
               (max 0 (v p.1.toNat p.2.toNat + (val - u p.1.toNat p.2.toNat) * factor))))) := by
  refine ⟨?_, ?_, ?_, ?_, ?_⟩
  · obtain ⟨u2, v2, hr, _⟩ := spreadF_total g (spreadMeasure g u val + 1) u v p val factor
      (Nat.lt_succ_self _)
    exact ⟨_, u2, v2, hr⟩
  · exact fun fuel hg => spreadF_stop_none g fuel u v p val factor hg
  · exact fun fuel t hg hh => spreadF_stop_nonhab g fuel u v p val factor t hg hh
  · exact fun fuel t hg hh hd => spreadF_stop_low g fuel u v p val factor t hg hh hd
  · exact fun fuel t hg hh hd => spreadF_go g fuel u v p val factor t hg hh hd

/-- Grid for the C8 witness: one habitable tile. -/
def wGridC8 : Grid := ⟨1, 1, fun _ _ => .habitable .grassland (fun _ => 0) 0⟩

/-- All-zero scratch matrix for the C8 witness. -/
def wZeroC8 : ℕ → ℕ → ℤ := fun _ _ => 0

/-- Witness for C8: on a concrete grid the recursion finishes, and a
non-positive difference returns the scratch matrices untouched. -/
theorem spread_terminates_witness :
    (∃ fuel u2 v2, spreadF wGridC8 fuel wZeroC8 wZeroC8 (0, 0) 5 1 = some (u2, v2)) ∧
    spreadF wGridC8 3 wZeroC8 wZeroC8 (0, 0) (-2) 1 = some (wZeroC8, wZeroC8) := by
  refine ⟨(spread_terminates wGridC8 wZeroC8 wZeroC8 (0, 0) 5 1).1, ?_⟩
  exact (spread_terminates wGridC8 wZeroC8 wZeroC8 (0, 0) (-2) 1).2.2.2.1 2
    (.habitable .grassland (fun _ => 0) 0) rfl rfl (by decide)

lemma foldl_bind_none {α β : Type} (f : β → α → Option β) (l : List α) :
    l.foldl (fun acc x => acc.bind fun b => f b x) none = none := by
  induction l with
  | nil => rfl
  | cons a rest ihl => exact ihl

lemma spreadF_pair_stop (g : Grid) (fuel : ℕ) (u a : ℕ → ℕ → ℤ) (p : Pos) (val : ℤ)
    (u2 w : ℕ → ℕ → ℤ)
    (hstop : ∀ (v : ℕ → ℕ → ℤ) (factor : ℤ), spreadF g (fuel + 1) u v p val factor = some (u, v))
    (hr : spreadF g (fuel + 1) u a p val 1 = some (u2, w)) :
    (∀ x y, a x y ≤ w x y) ∧
    ∀ r : ℕ → ℕ → ℤ, (∀ x y, 0 ≤ r x y) →
      spreadF g (fuel + 1) u (fun x y => w x y - a x y + r x y) p val (-1) = some (u2, r) := by
  rw [hstop a 1] at hr
  have hp2 := Option.some.inj hr
  rw [Prod.mk.injEq] at hp2
  obtain ⟨h1, h2⟩ := hp2
  subst h1
  subst h2
  refine ⟨fun x y => le_refl _, fun r hrr => ?_⟩
  rw [hstop (fun x y => a x y - a x y + r x y) (-1)]
  have heq : (fun x y => a x y - a x y + r x y) = r := by
    funext x y
    ring
  rw [heq]

/-- The paired-run property of `spread`: the control flow depends only on
`u` and `val`, a run with `factor = 1` on a pointwise non-negative `v`
never clips at the `max` and only raises `v`, and a run with
`factor = -1` started on the raised matrix (plus any non-negative rest)
takes the same path and subtracts exactly what the first run added. -/
lemma spreadF_pair (g : Grid) : ∀ (fuel : ℕ) (u a : ℕ → ℕ → ℤ) (p : Pos) (val : ℤ)
    (u2 w : ℕ → ℕ → ℤ), (∀ x y, 0 ≤ a x y) →
    spreadF g fuel u a p val 1 = some (u2, w) →
    ((∀ x y, a x y ≤ w x y) ∧
     ∀ r : ℕ → ℕ → ℤ, (∀ x y, 0 ≤ r x y) →
       spreadF g fuel u (fun x y => w x y - a x y + r x y) p val (-1) = some (u2, r)) := by
  intro fuel
  induction fuel with
  | zero =>
    intro u a p val u2 w ha hr
    exact Option.noConfusion hr
  | succ fuel ih =>
    intro u a p val u2 w ha hr
    rcases hg : g.tileAt p with _ | t
    · exact spreadF_pair_stop g fuel u a p val u2 w
        (fun v factor => spreadF_stop_none g fuel u v p val factor hg) hr
    rcases Bool.eq_false_or_eq_true t.isHabitable with hh | hh
    swap
    · exact spreadF_pair_stop g fuel u a p val u2 w
        (fun v factor => spreadF_stop_nonhab g fuel u v p val factor t hg hh) hr
    rcases le_or_lt val (u p.1.toNat p.2.toNat) with hd | hd
    · exact spreadF_pair_stop g fuel u a p val u2 w
        (fun v factor => spreadF_stop_low g fuel u v p val factor t hg hh (by omega)) hr
    have hfold : ∀ (l : List Pos) (u1 a1 u3 w3 : ℕ → ℕ → ℤ),
        (∀ x y, 0 ≤ a1 x y) →
        l.foldl (fun acc dir => acc.bind fun uv =>
            spreadF g fuel uv.1 uv.2 (p.1 + dir.1, p.2 + dir.2) (val.tdiv 2) 1)
          (some (u1, a1)) = some (u3, w3) →
        ((∀ x y, a1 x y ≤ w3 x y) ∧
         ∀ r : ℕ → ℕ → ℤ, (∀ x y, 0 ≤ r x y) →
           l.foldl (fun acc dir => acc.bind fun uv =>
               spreadF g fuel uv.1 uv.2 (p.1 + dir.1, p.2 + dir.2) (val.tdiv 2) (-1))
             (some (u1, fun x y => w3 x y - a1 x y + r x y)) = some (u3, r)) := by
      intro l
      induction l with
      | nil =>
        intro u1 a1 u3 w3 ha1 hfr
        have hp2 := Option.some.inj hfr
        rw [Prod.mk.injEq] at hp2
        obtain ⟨h1, h2⟩ := hp2
        subst h1
        subst h2
        refine ⟨fun x y => le_refl _, fun r hrr => ?_⟩
        have heq : (fun x y => a1 x y - a1 x y + r x y) = r := by
          funext x y
          ring
        rw [heq]
        rfl
      | cons dir rest ihl =>
        intro u1 a1 u3 w3 ha1 hfr
        rw [List.foldl_cons] at hfr
        simp only [Option.some_bind] at hfr
        rcases hhead : spreadF g fuel u1 a1 (p.1 + dir.1, p.2 + dir.2) (val.tdiv 2) 1
          with _ | uv
        · rw [hhead] at hfr
          rw [foldl_bind_none] at hfr
          exact Option.noConfusion hfr
        · rw [hhead] at hfr
          obtain ⟨hm1, hrest1⟩ := ih u1 a1 (p.1 + dir.1, p.2 + dir.2) (val.tdiv 2) uv.1 uv.2
            ha1 (by rw [hhead])
          have ha1b : ∀ x y, 0 ≤ uv.2 x y := fun x y => le_trans (ha1 x y) (hm1 x y)
          obtain ⟨hm2, hrest2⟩ := ihl uv.1 uv.2 u3 w3 ha1b hfr
          refine ⟨fun x y => le_trans (hm1 x y) (hm2 x y), fun r hrr => ?_⟩
          rw [List.foldl_cons]
          simp only [Option.some_bind]
          have hs : ∀ x y, (0 : ℤ) ≤ w3 x y - uv.2 x y + r x y := by
            intro x y
            have h3 := hm2 x y
            have h4 := hrr x y
            omega
          have hh1 := hrest1 (fun x y => w3 x y - uv.2 x y + r x y) hs
          have heq : (fun x y => uv.2 x y - a1 x y + (w3 x y - uv.2 x y + r x y)) =
              (fun x y => w3 x y - a1 x y + r x y) := by
            funext x y
            ring
          rw [heq] at hh1
          rw [hh1]
          exact hrest2 r hrr
    rw [spreadF_go g fuel u a p val 1 t hg hh (by omega)] at hr
    have ha1 : ∀ x y, 0 ≤ upd2 a p.1.toNat p.2.toNat
        (max 0 (a p.1.toNat p.2.toNat + (val - u p.1.toNat p.2.toNat) * 1)) x y := by
      intro x y
      unfold upd2
      split
      · exact le_max_left 0 _
      · exact ha x y
    obtain ⟨hm, hrem⟩ := hfold DIRS
      (upd2 u p.1.toNat p.2.toNat (val - u p.1.toNat p.2.toNat + u p.1.toNat p.2.toNat))
      (upd2 a p.1.toNat p.2.toNat
        (max 0 (a p.1.toNat p.2.toNat + (val - u p.1.toNat p.2.toNat) * 1)))
      u2 w ha1 hr
    have hmaxw : max 0 (a p.1.toNat p.2.toNat + (val - u p.1.toNat p.2.toNat) * 1) ≤
        w p.1.toNat p.2.toNat := by
      have h5 := hm p.1.toNat p.2.toNat
      unfold upd2 at h5
      rw [if_pos ⟨rfl, rfl⟩] at h5
      exact h5
    refine ⟨?_, fun r hrr => ?_⟩
    · intro x y
      refine le_trans ?_ (hm x y)
      refine upd2_ge a p.1.toNat p.2.toNat _ ?_ x y
      refine le_max_of_le_right ?_
      have h6 := ha p.1.toNat p.2.toNat
      omega
    · rw [spreadF_go g fuel u (fun x y => w x y - a x y + r x y) p val (-1) t hg hh (by omega)]
      beta_reduce
      have hbase : upd2 (fun x y => w x y - a x y + r x y) p.1.toNat p.2.toNat
          (max 0 (w p.1.toNat p.2.toNat - a p.1.toNat p.2.toNat + r p.1.toNat p.2.toNat +
            (val - u p.1.toNat p.2.toNat) * (-1))) =
          (fun x y => w x y - upd2 a p.1.toNat p.2.toNat
            (max 0 (a p.1.toNat p.2.toNat + (val - u p.1.toNat p.2.toNat) * 1)) x y +
            r x y) := by
        funext x y
        unfold upd2
        by_cases hxy : x = p.1.toNat ∧ y = p.2.toNat
        · obtain ⟨hx, hy⟩ := hxy
          subst hx
          subst hy
          rw [if_pos ⟨rfl, rfl⟩, if_pos ⟨rfl, rfl⟩]
          have h7 := ha p.1.toNat p.2.toNat
          have h8 := hrr p.1.toNat p.2.toNat
          have h9 : max 0 (a p.1.toNat p.2.toNat + (val - u p.1.toNat p.2.toNat) * 1) =
              a p.1.toNat p.2.toNat + (val - u p.1.toNat p.2.toNat) * 1 := by
            rw [max_eq_right]
            omega
          rw [h9] at hmaxw
          rw [h9]
          rw [max_eq_right (by omega)]
          ring
        · rw [if_neg hxy, if_neg hxy]
      rw [hbase]
      exact hrem r hrr

/-- The `call` matrix produced by a `spread` started on a fresh all-zero
`u` scratch, run with the budget the termination theorem certifies. -/
def spreadCall (g : Grid) (call : ℕ → ℕ → ℤ) (p : Pos) (power factor : ℤ) : ℕ → ℕ → ℤ :=
  ((spreadF g (spreadMeasure g (fun _ _ => 0) power + 1) (fun _ _ => 0) call p power
    factor).map Prod.snd).getD call

/-- `FlagGrid::add` from `src/grid.rs`: bounds, habitability and
no-flag-yet guard, then the flag is set and `spread` raises `call`. -/
def FlagGrid.add (fg : FlagGrid) (g : Grid) (p : Pos) (power : ℤ) : FlagGrid :=
  if p.1 < 0 ∨ (fg.width : ℤ) ≤ p.1 ∨ p.2 < 0 ∨ (fg.height : ℤ) ≤ p.2 ∨
      (g.tiles p.1.toNat p.2.toNat).isHabitable = false ∨
      fg.flags p.1.toNat p.2.toNat = true then
    fg
  else
    ⟨fg.width, fg.height,
     fun x y => if x = p.1.toNat ∧ y = p.2.toNat then true else fg.flags x y,
     spreadCall g fg.call p power 1⟩

/-- `FlagGrid::remove` from `src/grid.rs`: bounds, habitability and
flag-present guard, then the flag is cleared and `spread` lowers `call`. -/
def FlagGrid.remove (fg : FlagGrid) (g : Grid) (p : Pos) (power : ℤ) : FlagGrid :=
  if p.1 < 0 ∨ (fg.width : ℤ) ≤ p.1 ∨ p.2 < 0 ∨ (fg.height : ℤ) ≤ p.2 ∨
      (g.tiles p.1.toNat p.2.toNat).isHabitable = false ∨
      fg.flags p.1.toNat p.2.toNat = false then
    fg
  else
    ⟨fg.width, fg.height,
     fun x y => if x = p.1.toNat ∧ y = p.2.toNat then false else fg.flags x y,
     spreadCall g fg.call p power (-1)⟩

/-- C5.  `FlagGrid::add` followed by `FlagGrid::remove` with the same
power, at a habitable in-bounds position of a flag grid whose flags are
all false and whose call matrix is all zero, restores all flags false
and call all zero. -/
theorem add_remove_cancel (g : Grid) (fg : FlagGrid) (p : Pos) (power : ℤ)
    (hpow : 0 ≤ power)
    (hflags : ∀ x y, fg.flags x y = false) (hcall : ∀ x y, fg.call x y = 0)
    (hx1 : 0 ≤ p.1) (hx2 : p.1 < (fg.width : ℤ))
    (hy1 : 0 ≤ p.2) (hy2 : p.2 < (fg.height : ℤ))
    (hhab : (g.tiles p.1.toNat p.2.toNat).isHabitable = true) :
    (∀ x y, ((fg.add g p power).remove g p power).flags x y = false) ∧
    (∀ x y, ((fg.add g p power).remove g p power).call x y = 0) := by
  have hgadd : ¬(p.1 < 0 ∨ (fg.width : ℤ) ≤ p.1 ∨ p.2 < 0 ∨ (fg.height : ℤ) ≤ p.2 ∨
      (g.tiles p.1.toNat p.2.toNat).isHabitable = false ∨
      fg.flags p.1.toNat p.2.toNat = true) := by
    intro hc
    rcases hc with hc | hc | hc | hc | hc | hc
    · omega
    · omega
    · omega
    · omega
    · rw [hhab] at hc
      exact Bool.noConfusion hc
    · rw [hflags p.1.toNat p.2.toNat] at hc
      exact Bool.noConfusion hc
  have hadd : fg.add g p power = ⟨fg.width, fg.height,
      fun x y => if x = p.1.toNat ∧ y = p.2.toNat then true else fg.flags x y,
      spreadCall g fg.call p power 1⟩ := by
    unfold FlagGrid.add
    rw [if_neg hgadd]
  obtain ⟨u2, w, hsome, hmonu⟩ := spreadF_total g (spreadMeasure g (fun _ _ => 0) power + 1)
    (fun _ _ => 0) fg.call p power 1 (Nat.lt_succ_self _)
  have hcalladd : spreadCall g fg.call p power 1 = w := by
    unfold spreadCall
    rw [hsome]
    rfl
  obtain ⟨hmw, hrem⟩ := spreadF_pair g (spreadMeasure g (fun _ _ => 0) power + 1)
    (fun _ _ => 0) fg.call p power u2 w (fun x y => by rw [hcall]) hsome
  have hrw := hrem (fun _ _ => 0) (fun x y => le_refl 0)
  have heq : (fun x y => w x y - fg.call x y + (fun _ _ => (0 : ℤ)) x y) = w := by
    funext x y
    rw [hcall x y]
    ring
  rw [heq] at hrw
  have hgrem : ¬(p.1 < 0 ∨ (fg.width : ℤ) ≤ p.1 ∨ p.2 < 0 ∨ (fg.height : ℤ) ≤ p.2 ∨
      (g.tiles p.1.toNat p.2.toNat).isHabitable = false ∨
      (if p.1.toNat = p.1.toNat ∧ p.2.toNat = p.2.toNat then true else
        fg.flags p.1.toNat p.2.toNat) = false) := by
    rw [if_pos ⟨rfl, rfl⟩]
    intro hc
    rcases hc with hc | hc | hc | hc | hc | hc
    · omega
    · omega
    · omega
    · omega
    · rw [hhab] at hc
      exact Bool.noConfusion hc
    · exact Bool.noConfusion hc
  have hkey : (fg.add g p power).remove g p power = ⟨fg.width, fg.height,
      fun x y => if x = p.1.toNat ∧ y = p.2.toNat then false else
        (if x = p.1.toNat ∧ y = p.2.toNat then true else fg.flags x y),
      spreadCall g (spreadCall g fg.call p power 1) p power (-1)⟩ := by
    rw [hadd]
    unfold FlagGrid.remove
    dsimp only
    rw [if_neg hgrem]
  rw [hkey]
  constructor
  · intro x y
    show (if x = p.1.toNat ∧ y = p.2.toNat then false else
      (if x = p.1.toNat ∧ y = p.2.toNat then true else fg.flags x y)) = false
    by_cases hxy : x = p.1.toNat ∧ y = p.2.toNat
    · rw [if_pos hxy]
    · rw [if_neg hxy, if_neg hxy]
      exact hflags x y
  · intro x y
    show spreadCall g (spreadCall g fg.call p power 1) p power (-1) x y = 0
    rw [hcalladd]
    unfold spreadCall
    rw [hrw]
    rfl

/-- Flag grid for the C5 witness: 1 by 1, no flags, zero call. -/
def wFgC5 : FlagGrid := ⟨1, 1, fun _ _ => false, fun _ _ => 0⟩

/-- Grid for the C5 witness: one habitable tile. -/
def wGridC5 : Grid := ⟨1, 1, fun _ _ => .habitable .village (fun _ => 2) 1⟩

/-- Witness for C5: a concrete add-then-remove at the single habitable
tile leaves the flag grid clean. -/
theorem add_remove_cancel_witness :
    (∀ x y, ((wFgC5.add wGridC5 (0, 0) 8).remove wGridC5 (0, 0) 8).flags x y = false) ∧
    (∀ x y, ((wFgC5.add wGridC5 (0, 0) 8).remove wGridC5 (0, 0) 8).call x y = 0) :=
  add_remove_cancel wGridC5 wFgC5 (0, 0) 8 (by decide) (fun _ _ => rfl) (fun _ _ => rfl)
    (by decide) (by decide) (by decide) (by decide) rfl

/-- The priority array of `action_noble` (`src/king.rs`): five location
slots and five value slots. -/
structure PosVal : Type where
  locs : ℕ → Pos
  vals : ℕ → ℤ

/-- `PosVal::new`: no locations, all values `-1`. -/
def PosVal.new : PosVal := ⟨fun _ => (-1, -1), fun _ => -1⟩

/-- `self.vals.into_iter().position(|val| val < vx).unwrap_or(5)` over
the five slots. -/
def posValIndex (vals : ℕ → ℤ) (vx : ℤ) : ℕ :=
  if vals 0 < vx then 0
  else if vals 1 < vx then 1
  else if vals 2 < vx then 2
  else if vals 3 < vx then 3
  else if vals 4 < vx then 4
  else 5

/-- `PosVal::insert` from `src/king.rs` (`N = 5`, `MAX_PRIORITY = 32`).
The reversed-iterator loop writes slot `j` from old slot `j - 1` only
for `j ≥ i + 2` (the first drawn element of each source iterator is
discarded), so the old slot `i` entry is dropped and the old slot
`i + 1` entry both stays in place and is copied one step deeper.  When
every stored value is at least `vx` the position defaults to `5`, the
guard `5 < 32` passes, and the slice `locs[6..]` of the five-element
array panics: that run is `none` here. -/
def PosVal.insert (pv : PosVal) (lx : Pos) (vx : ℤ) : Option PosVal :=
  if posValIndex pv.vals vx ≤ 4 then
    some ⟨fun j => if j < posValIndex pv.vals vx then pv.locs j
            else if j = posValIndex pv.vals vx then lx
            else if j = posValIndex pv.vals vx + 1 then pv.locs (posValIndex pv.vals vx + 1)
            else pv.locs (j - 1),
          fun j => if j < posValIndex pv.vals vx then pv.vals j
            else if j = posValIndex pv.vals vx then vx
            else if j = posValIndex pv.vals vx + 1 then pv.vals (posValIndex pv.vals vx + 1)
            else pv.vals (j - 1)⟩
  else none

/-- `units[..pl].sum() + units[pl + 1..].sum()` over the eight slots,
including the cached total at index 0. -/
def nobleEnemy (units : Units) (pl : ℕ) : ℕ :=
  ((List.range pl).map units).sum +
    ((List.range (8 - (pl + 1))).map fun k => units (pl + 1 + k)).sum

/-- The Noble score `(val * (MAX_POPULATION - enemy + army)) * army^0.5`
with the square root supplied as an oracle `sqrtA` (the `f32` `powf`). -/
def nobleScore (vals : ℕ → ℕ → ℤ) (sqrtA : ℕ → ℚ) (i j : ℕ) (army enemy : ℕ) : ℚ :=
  ((vals i j * ((MAX_POPULATION : ℤ) - (enemy : ℤ) + (army : ℤ)) : ℤ) : ℚ) * sqrtA army

/-- One cell of the `action_noble` scan: on a habitable tile whose enemy
population exceeds the king's army and whose score exceeds 7000, insert
the position with the truncated score. -/
def nobleStep (g : Grid) (vals : ℕ → ℕ → ℤ) (pl : ℕ) (sqrtA : ℕ → ℚ)
    (pv : PosVal) (c : ℕ × ℕ) : Option PosVal :=
  match g.tiles c.1 c.2 with
  | .habitable _ units _ =>
    if units pl < nobleEnemy units pl ∧
        7000 < nobleScore vals sqrtA c.1 c.2 (units pl) (nobleEnemy units pl) then
      pv.insert ((c.1 : ℤ), (c.2 : ℤ))
        (truncQ (nobleScore vals sqrtA c.1 c.2 (units pl) (nobleEnemy units pl)))
    else some pv
  | _ => some pv

/-- The full `action_noble` scan over the grid, rows outer and columns
inner, both ascending. -/
def actionNobleList (g : Grid) (vals : ℕ → ℕ → ℤ) (pl : ℕ) (sqrtA : ℕ → ℚ) : Option PosVal :=
  (cellList g false false).foldl
    (fun acc c => acc.bind fun pv => nobleStep g vals pl sqrtA pv c) (some PosVal.new)

/-- The positions flagged at the end of `action_noble`: the maximal
prefix of the array with positive values. -/
def nobleFlagPositions (pv : PosVal) : List Pos :=
  (((List.range 5).map fun k => (pv.locs k, pv.vals k)).takeWhile fun e => decide (0 < e.2)).map
    Prod.fst

/-- `action_noble` from `src/king.rs`: scan, then add a flag with
`FLAG_POWER` at every position of the positive prefix. -/
def action_noble (g : Grid) (vals : ℕ → ℕ → ℤ) (pl : ℕ) (sqrtA : ℕ → ℚ) (fg : FlagGrid) :
    Option FlagGrid :=
  (actionNobleList g vals pl sqrtA).map fun pv =>
    (nobleFlagPositions pv).foldl (fun f2 p => f2.add g p FLAG_POWER) fg

/-- The qualifying tiles of the Noble scan, in scan order, with their
truncated scores: the claimed priority list is the top five of these by
descending score (spec-modelled definition, for comparison). -/
def nobleQualifying (g : Grid) (vals : ℕ → ℕ → ℤ) (pl : ℕ) (sqrtA : ℕ → ℚ) : List (Pos × ℤ) :=
  (cellList g false false).filterMap fun c =>
    match g.tiles c.1 c.2 with
    | .habitable _ units _ =>
      if units pl < nobleEnemy units pl ∧
          7000 < nobleScore vals sqrtA c.1 c.2 (units pl) (nobleEnemy units pl) then
        some (((c.1 : ℤ), (c.2 : ℤ)),
          truncQ (nobleScore vals sqrtA c.1 c.2 (units pl) (nobleEnemy units pl)))
      else none
    | _ => none

/-- Units of the first C9 tile: army 4, enemies 9, cached total 13. -/
def wUnitsC9A : Units := fun k => if k = 0 then 13 else if k = 1 then 4 else if k = 2 then 9 else 0

/-- Units of the second C9 tile: army 4, enemies 11, cached total 15. -/
def wUnitsC9B : Units := fun k => if k = 0 then 15 else if k = 1 then 4 else if k = 2 then 11 else 0

/-- Grid for C9: two habitable tiles in one row. -/
def wGridC9 : Grid :=
  ⟨2, 1, fun x _ => if x = 0 then .habitable .grassland wUnitsC9A 2
    else .habitable .grassland wUnitsC9B 2⟩

/-- Strategic values for C9: 8 on the first tile, 9 on the second. -/
def wValsC9 : ℕ → ℕ → ℤ := fun i _ => if i = 0 then 8 else 9

/-- Square-root oracle for C9: the armies are 4, whose `f32` square root
is exactly 2. -/
def wSqrtC9 : ℕ → ℚ := fun a => if a = 4 then 2 else 0

/-- Empty flag grid for C9. -/
def wFgC9 : FlagGrid := ⟨2, 1, fun _ _ => false, fun _ _ => 0⟩

/-- Counterexample for C9: both tiles qualify (scores 7696 and 8586) and
the qualifying list has at most five entries, so the claimed top-five
priority list contains the first tile; yet `action_noble` leaves the
first tile unflagged, because inserting the better second tile at slot 0
overwrites the first tile instead of shifting it down. -/
theorem noble_top5_counterexample :
    ((0, 0), 7696) ∈ nobleQualifying wGridC9 wValsC9 1 wSqrtC9 ∧
    (nobleQualifying wGridC9 wValsC9 1 wSqrtC9).length ≤ 5 ∧
    (action_noble wGridC9 wValsC9 1 wSqrtC9 wFgC9).map (fun f2 => f2.flags 0 0) =
      some false ∧
    (action_noble wGridC9 wValsC9 1 wSqrtC9 wFgC9).map (fun f2 => f2.flags 1 0) =
      some true :=
  ⟨by with_unfolding_all decide, by with_unfolding_all decide,
   by with_unfolding_all decide, by with_unfolding_all decide⟩

/-- An entry the Noble scan may store: an in-bounds habitable position. -/
def nobleEntryOk (g : Grid) (p : Pos) : Prop :=
  0 ≤ p.1 ∧ p.1 < (g.width : ℤ) ∧ 0 ≤ p.2 ∧ p.2 < (g.height : ℤ) ∧
    (g.tiles p.1.toNat p.2.toNat).isHabitable = true

lemma posValIndex_spec (vals : ℕ → ℤ) (vx : ℤ) :
    (∀ j, j < posValIndex vals vx → vx ≤ vals j) ∧
    (posValIndex vals vx ≤ 4 → vals (posValIndex vals vx) < vx) := by
  unfold posValIndex
  by_cases h0 : vals 0 < vx
  · rw [if_pos h0]
    exact ⟨fun j hj => absurd hj (Nat.not_lt_zero j), fun _ => h0⟩
  rw [if_neg h0]
  by_cases h1 : vals 1 < vx
  · rw [if_pos h1]
    refine ⟨fun j hj => ?_, fun _ => h1⟩
    have hj0 : j = 0 := by omega
    rw [hj0]
    omega
  rw [if_neg h1]
  by_cases h2 : vals 2 < vx
  · rw [if_pos h2]
    refine ⟨fun j hj => ?_, fun _ => h2⟩
    have hj0 : j = 0 ∨ j = 1 := by omega
    rcases hj0 with rfl | rfl
    · omega
    · omega
  rw [if_neg h2]
  by_cases h3 : vals 3 < vx
  · rw [if_pos h3]
    refine ⟨fun j hj => ?_, fun _ => h3⟩
    have hj0 : j = 0 ∨ j = 1 ∨ j = 2 := by omega
    rcases hj0 with rfl | rfl | rfl
    · omega
    · omega
    · omega
  rw [if_neg h3]
  by_cases h4 : vals 4 < vx
  · rw [if_pos h4]
    refine ⟨fun j hj => ?_, fun _ => h4⟩
    have hj0 : j = 0 ∨ j = 1 ∨ j = 2 ∨ j = 3 := by omega
    rcases hj0 with rfl | rfl | rfl | rfl
    · omega
    · omega
    · omega
    · omega
  rw [if_neg h4]
  refine ⟨fun j hj => ?_, fun h5 => absurd h5 (by omega)⟩
  have hj0 : j = 0 ∨ j = 1 ∨ j = 2 ∨ j = 3 ∨ j = 4 := by omega
  rcases hj0 with rfl | rfl | rfl | rfl | rfl
  · omega
  · omega
  · omega
  · omega
  · omega

lemma insert_preserves (g : Grid) (pv pv2 : PosVal) (lx : Pos) (vx : ℤ) (i : ℕ)
    (hie : posValIndex pv.vals vx = i)
    (hsort : ∀ j, j + 1 ≤ 4 → pv.vals (j + 1) ≤ pv.vals j)
    (hprov : ∀ k, k ≤ 4 → 0 < pv.vals k → nobleEntryOk g (pv.locs k))
    (hlx : nobleEntryOk g lx)
    (hins : pv.insert lx vx = some pv2) :
    (∀ j, j + 1 ≤ 4 → pv2.vals (j + 1) ≤ pv2.vals j) ∧
    (∀ k, k ≤ 4 → 0 < pv2.vals k → nobleEntryOk g (pv2.locs k)) := by
  unfold PosVal.insert at hins
  rw [hie] at hins
  by_cases hi : i ≤ 4
  swap
  · rw [if_neg hi] at hins
    exact Option.noConfusion hins
  rw [if_pos hi] at hins
  have hpv := Option.some.inj hins
  have hvals : ∀ m, pv2.vals m = if m < i then pv.vals m else if m = i then vx
      else if m = i + 1 then pv.vals (i + 1) else pv.vals (m - 1) := by
    intro m
    rw [← hpv]
  have hlocs : ∀ m, pv2.locs m = if m < i then pv.locs m else if m = i then lx
      else if m = i + 1 then pv.locs (i + 1) else pv.locs (m - 1) := by
    intro m
    rw [← hpv]
  obtain ⟨hlt0, hvi0⟩ := posValIndex_spec pv.vals vx
  rw [hie] at hlt0 hvi0
  refine ⟨?_, ?_⟩
  · intro j hj
    rw [hvals (j + 1), hvals j]
    rcases lt_trichotomy j i with hji | hji | hji
    · rw [if_pos hji]
      by_cases hj1 : j + 1 < i
      · rw [if_pos hj1]
        exact hsort j hj
      · have hj1e : j + 1 = i := by omega
        rw [if_neg hj1, if_pos hj1e]
        exact hlt0 j hji
    · rw [if_neg (show ¬j + 1 < i by omega), if_neg (show ¬j + 1 = i by omega),
        if_pos (show j + 1 = i + 1 by omega), if_neg (show ¬j < i by omega), if_pos hji]
      have h5 := hvi0 hi
      have h6 := hsort i (by omega)
      omega
    · by_cases hj2 : j = i + 1
      · rw [if_neg (show ¬j + 1 < i by omega), if_neg (show ¬j + 1 = i by omega),
          if_neg (show ¬j + 1 = i + 1 by omega), if_neg (show ¬j < i by omega),
          if_neg (show ¬j = i by omega), if_pos hj2]
        have he : j + 1 - 1 = i + 1 := by omega
        rw [he]
      · rw [if_neg (show ¬j + 1 < i by omega), if_neg (show ¬j + 1 = i by omega),
          if_neg (show ¬j + 1 = i + 1 by omega), if_neg (show ¬j < i by omega),
          if_neg (show ¬j = i by omega), if_neg hj2]
        have he : j + 1 - 1 = j := by omega
        rw [he]
        have h6 := hsort (j - 1) (by omega)
        have he2 : j - 1 + 1 = j := by omega
        rw [he2] at h6
        exact h6
  · intro k hk hpos
    rw [hlocs k]
    rw [hvals k] at hpos
    by_cases hk1 : k < i
    · rw [if_pos hk1] at hpos ⊢
      exact hprov k hk hpos
    · rw [if_neg hk1] at hpos ⊢
      by_cases hk2 : k = i
      · rw [if_pos hk2] at hpos ⊢
        exact hlx
      · rw [if_neg hk2] at hpos ⊢
        by_cases hk3 : k = i + 1
        · rw [if_pos hk3] at hpos ⊢
          exact hprov (i + 1) (by omega) hpos
        · rw [if_neg hk3] at hpos ⊢
          exact hprov (k - 1) (by omega) hpos

lemma foldl_bind_inv {α β : Type} (P : β → Prop) (f : β → α → Option β) (l : List α)
    (h : ∀ b a, a ∈ l → P b → ∀ b2, f b a = some b2 → P b2) :
    ∀ b b2, P b → l.foldl (fun acc x => acc.bind fun bb => f bb x) (some b) = some b2 →
      P b2 := by
  induction l with
  | nil =>
    intro b b2 hb hf
    have hb2 := Option.some.inj hf
    rw [← hb2]
    exact hb
  | cons a rest ihl =>
    intro b b2 hb hf
    rw [List.foldl_cons] at hf
    simp only [Option.some_bind] at hf
    rcases hfa : f b a with _ | b1
    · rw [hfa] at hf
      rw [foldl_bind_none] at hf
      exact Option.noConfusion hf
    · rw [hfa] at hf
      exact ihl (fun b3 a2 ha2 => h b3 a2 (List.mem_cons_of_mem a ha2)) b1 b2
        (h b a (List.mem_cons_self a rest) hb b1 hfa) hf

lemma nobleStep_inv (g : Grid) (vals : ℕ → ℕ → ℤ) (pl : ℕ) (sqrtA : ℕ → ℚ)
    (pv : PosVal) (c : ℕ × ℕ) (hc1 : c.1 < g.width) (hc2 : c.2 < g.height)
    (hsort : ∀ j, j + 1 ≤ 4 → pv.vals (j + 1) ≤ pv.vals j)
    (hprov : ∀ k, k ≤ 4 → 0 < pv.vals k → nobleEntryOk g (pv.locs k))
    (pv2 : PosVal) (hstep : nobleStep g vals pl sqrtA pv c = some pv2) :
    (∀ j, j + 1 ≤ 4 → pv2.vals (j + 1) ≤ pv2.vals j) ∧
    (∀ k, k ≤ 4 → 0 < pv2.vals k → nobleEntryOk g (pv2.locs k)) := by
  unfold nobleStep at hstep
  rcases htile : g.tiles c.1 c.2 with _ | _ | own | ⟨land, units, own⟩
  · rw [htile] at hstep
    have hpe := Option.some.inj hstep
    rw [← hpe]
    exact ⟨hsort, hprov⟩
  · rw [htile] at hstep
    have hpe := Option.some.inj hstep
    rw [← hpe]
    exact ⟨hsort, hprov⟩
  · rw [htile] at hstep
    have hpe := Option.some.inj hstep
    rw [← hpe]
    exact ⟨hsort, hprov⟩
  · rw [htile] at hstep
    replace hstep : (if units pl < nobleEnemy units pl ∧
        7000 < nobleScore vals sqrtA c.1 c.2 (units pl) (nobleEnemy units pl) then
        pv.insert ((c.1 : ℤ), (c.2 : ℤ))
          (truncQ (nobleScore vals sqrtA c.1 c.2 (units pl) (nobleEnemy units pl)))
      else some pv) = some pv2 := hstep
    by_cases hcond : units pl < nobleEnemy units pl ∧
        7000 < nobleScore vals sqrtA c.1 c.2 (units pl) (nobleEnemy units pl)
    · rw [if_pos hcond] at hstep
      refine insert_preserves g pv pv2 ((c.1 : ℤ), (c.2 : ℤ))
        (truncQ (nobleScore vals sqrtA c.1 c.2 (units pl) (nobleEnemy units pl)))
        (posValIndex pv.vals _) rfl hsort hprov ?_ hstep
      refine ⟨by omega, ?_, by omega, ?_, ?_⟩
      · show ((c.1 : ℕ) : ℤ) < (g.width : ℤ)
        exact_mod_cast hc1
      · show ((c.2 : ℕ) : ℤ) < (g.height : ℤ)
        exact_mod_cast hc2
      · rw [Int.toNat_natCast, Int.toNat_natCast, htile]
        rfl
    · rw [if_neg hcond] at hstep
      have hpe := Option.some.inj hstep
      rw [← hpe]
      exact ⟨hsort, hprov⟩

lemma actionNobleList_inv (g : Grid) (vals : ℕ → ℕ → ℤ) (pl : ℕ) (sqrtA : ℕ → ℚ)
    (pv2 : PosVal) (hscan : actionNobleList g vals pl sqrtA = some pv2) :
    (∀ j, j + 1 ≤ 4 → pv2.vals (j + 1) ≤ pv2.vals j) ∧
    (∀ k, k ≤ 4 → 0 < pv2.vals k → nobleEntryOk g (pv2.locs k)) := by
  unfold actionNobleList at hscan
  refine foldl_bind_inv
    (fun pv => (∀ j, j + 1 ≤ 4 → pv.vals (j + 1) ≤ pv.vals j) ∧
      (∀ k, k ≤ 4 → 0 < pv.vals k → nobleEntryOk g (pv.locs k)))
    (fun pv c => nobleStep g vals pl sqrtA pv c) (cellList g false false)
    ?_ PosVal.new pv2 ⟨fun j hj => le_refl _,
      fun k hk hpos => absurd hpos (show ¬(0 : ℤ) < -1 by decide)⟩ hscan
  intro pv c hc hpv pv3 hstep
  have hcb : c.1 < g.width ∧ c.2 < g.height := by
    unfold cellList at hc
    rw [List.mem_flatMap] at hc
    obtain ⟨a, ha, hc2⟩ := hc
    rw [List.mem_map] at hc2
    obtain ⟨b, hb2, rfl⟩ := hc2
    exact ⟨mem_scanList ha, mem_scanList hb2⟩
  exact nobleStep_inv g vals pl sqrtA pv c hcb.1 hcb.2 hpv.1 hpv.2 pv3 hstep

lemma add_flags_self (fgc : FlagGrid) (g : Grid) (p : Pos) (pow : ℤ)
    (hx1 : 0 ≤ p.1) (hx2 : p.1 < (fgc.width : ℤ)) (hy1 : 0 ≤ p.2)
    (hy2 : p.2 < (fgc.height : ℤ))
    (hhab : (g.tiles p.1.toNat p.2.toNat).isHabitable = true) :
    (fgc.add g p pow).flags p.1.toNat p.2.toNat = true := by
  unfold FlagGrid.add
  split
  · rename_i hc
    rcases hc with hc | hc | hc | hc | hc | hc
    · omega
    · omega
    · omega
    · omega
    · rw [hhab] at hc
      exact Bool.noConfusion hc
    · exact hc
  · show (if p.1.toNat = p.1.toNat ∧ p.2.toNat = p.2.toNat then true
      else fgc.flags p.1.toNat p.2.toNat) = true
    rw [if_pos ⟨rfl, rfl⟩]

lemma add_flags_true_mono (fgc : FlagGrid) (g : Grid) (p : Pos) (pow : ℤ) (x y : ℕ)
    (h : fgc.flags x y = true) : (fgc.add g p pow).flags x y = true := by
  unfold FlagGrid.add
  split
  · exact h
  · show (if x = p.1.toNat ∧ y = p.2.toNat then true else fgc.flags x y) = true
    split
    · rfl
    · exact h

lemma add_flags_ne (fgc : FlagGrid) (g : Grid) (p : Pos) (pow : ℤ) (x y : ℕ)
    (hne : ¬(x = p.1.toNat ∧ y = p.2.toNat)) :
    (fgc.add g p pow).flags x y = fgc.flags x y := by
  unfold FlagGrid.add
  split
  · rfl
  · show (if x = p.1.toNat ∧ y = p.2.toNat then true else fgc.flags x y) = fgc.flags x y
    rw [if_neg hne]

lemma add_dims (fgc : FlagGrid) (g : Grid) (p : Pos) (pow : ℤ) :
    (fgc.add g p pow).width = fgc.width ∧ (fgc.add g p pow).height = fgc.height := by
  unfold FlagGrid.add
  split
  · exact ⟨rfl, rfl⟩
  · exact ⟨rfl, rfl⟩

lemma addFold_true_mono (g : Grid) (pow : ℤ) (l : List Pos) : ∀ (fgc : FlagGrid) (x y : ℕ),
    fgc.flags x y = true →
    (l.foldl (fun f2 p => f2.add g p pow) fgc).flags x y = true := by
  induction l with
  | nil => exact fun fgc x y h => h
  | cons p rest ihl =>
    intro fgc x y h
    rw [List.foldl_cons]
    exact ihl (fgc.add g p pow) x y (add_flags_true_mono fgc g p pow x y h)

lemma addFold_flags_ne (g : Grid) (pow : ℤ) (l : List Pos) : ∀ (fgc : FlagGrid) (x y : ℕ),
    (∀ p ∈ l, ¬(x = p.1.toNat ∧ y = p.2.toNat)) →
    (l.foldl (fun f2 p => f2.add g p pow) fgc).flags x y = fgc.flags x y := by
  induction l with
  | nil => exact fun fgc x y _ => rfl
  | cons p rest ihl =>
    intro fgc x y hp
    rw [List.foldl_cons]
    rw [ihl (fgc.add g p pow) x y (fun q hq => hp q (List.mem_cons_of_mem p hq))]
    exact add_flags_ne fgc g p pow x y (hp p (List.mem_cons_self p rest))

lemma addFold_flags_mem (g : Grid) (pow : ℤ) (l : List Pos) : ∀ (fgc : FlagGrid) (p : Pos),
    p ∈ l → 0 ≤ p.1 → p.1 < (fgc.width : ℤ) → 0 ≤ p.2 → p.2 < (fgc.height : ℤ) →
    (g.tiles p.1.toNat p.2.toNat).isHabitable = true →
    (l.foldl (fun f2 q => f2.add g q pow) fgc).flags p.1.toNat p.2.toNat = true := by
  induction l with
  | nil =>
    intro fgc p hp
    exact absurd hp (List.not_mem_nil p)
  | cons q rest ihl =>
    intro fgc p hp hx1 hx2 hy1 hy2 hhab
    rw [List.foldl_cons]
    rcases List.mem_cons.mp hp with rfl | hp2
    · exact addFold_true_mono g pow rest (fgc.add g p pow) _ _
        (add_flags_self fgc g p pow hx1 hx2 hy1 hy2 hhab)
    · refine ihl (fgc.add g q pow) p hp2 hx1 ?_ hy1 ?_ hhab
      · rw [(add_dims fgc g q pow).1]
        exact hx2
      · rw [(add_dims fgc g q pow).2]
        exact hy2

lemma mem_nobleFlagPositions (pv : PosVal) (p : Pos) (hp : p ∈ nobleFlagPositions pv) :
    ∃ k, k ≤ 4 ∧ 0 < pv.vals k ∧ pv.locs k = p := by
  unfold nobleFlagPositions at hp
  rw [List.mem_map] at hp
  obtain ⟨e, he, hep⟩ := hp
  have hpe := List.mem_takeWhile_imp he
  have he2 := (List.takeWhile_sublist _).subset he
  rw [List.mem_map] at he2
  obtain ⟨k, hk, hke⟩ := he2
  rw [List.mem_range] at hk
  refine ⟨k, by omega, ?_, ?_⟩
  · rw [← hke] at hpe
    exact of_decide_eq_true hpe
  · rw [← hke] at hep
    exact hep

/-- C9 (amended).  On a successful run of `action_noble` the final
priority array is sorted by descending value, every position in the
positive-valued prefix of the array ends up flagged, and every other
cell keeps its previous flag: the flags are added exactly along the
array, which `PosVal::insert` builds by overwriting slot `i` (dropping
the old entry there) and duplicating the old entry of slot `i + 1`, not
by a sorted insertion of all qualifying tiles. -/
theorem noble_amended (g : Grid) (vals : ℕ → ℕ → ℤ) (pl : ℕ) (sqrtA : ℕ → ℚ)
    (fg fg2 : FlagGrid) (pv : PosVal)
    (hwd : fg.width = g.width) (hht : fg.height = g.height)
    (hscan : actionNobleList g vals pl sqrtA = some pv)
    (hrun : action_noble g vals pl sqrtA fg = some fg2) :
    (∀ j, j + 1 ≤ 4 → pv.vals (j + 1) ≤ pv.vals j) ∧
    (∀ p, p ∈ nobleFlagPositions pv → fg2.flags p.1.toNat p.2.toNat = true) ∧
    (∀ x y : ℕ, ((x : ℤ), (y : ℤ)) ∉ nobleFlagPositions pv → fg2.flags x y = fg.flags x y) := by
  have hinv := actionNobleList_inv g vals pl sqrtA pv hscan
  have hfg2 : fg2 = (nobleFlagPositions pv).foldl (fun f2 p => f2.add g p FLAG_POWER) fg := by
    unfold action_noble at hrun
    rw [hscan] at hrun
    exact (Option.some.inj hrun).symm
  subst hfg2
  refine ⟨hinv.1, ?_, ?_⟩
  · intro p hp
    obtain ⟨k, hk4, hkpos, hkeq⟩ := mem_nobleFlagPositions pv p hp
    have hok := hinv.2 k hk4 hkpos
    rw [hkeq] at hok
    obtain ⟨h1, h2, h3, h4, h5⟩ := hok
    refine addFold_flags_mem g FLAG_POWER (nobleFlagPositions pv) fg p hp h1 ?_ h3 ?_ h5
    · rw [hwd]
      exact h2
    · rw [hht]
      exact h4
  · intro x y hxy
    refine addFold_flags_ne g FLAG_POWER (nobleFlagPositions pv) fg x y ?_
    intro q hq hqeq
    obtain ⟨k, hk4, hkpos, hkeq⟩ := mem_nobleFlagPositions pv q hq
    have hok := hinv.2 k hk4 hkpos
    rw [hkeq] at hok
    obtain ⟨h1, h2, h3, h4, h5⟩ := hok
    obtain ⟨hqx, hqy⟩ := hqeq
    have hq1 : q.1 = (x : ℤ) := by omega
    have hq2 : q.2 = (y : ℤ) := by omega
    have hqp : q = ((x : ℤ), (y : ℤ)) := by
      rw [Prod.ext_iff]
      exact ⟨hq1, hq2⟩
    rw [hqp] at hq
    exact hxy hq

/-- Witness for the amended C9: on the two-tile grid the scan succeeds,
the run succeeds, the final array is sorted, and the better tile is
flagged. -/
theorem noble_amended_witness :
    ∃ pv fg2, actionNobleList wGridC9 wValsC9 1 wSqrtC9 = some pv ∧
      action_noble wGridC9 wValsC9 1 wSqrtC9 wFgC9 = some fg2 ∧
      (∀ j, j + 1 ≤ 4 → pv.vals (j + 1) ≤ pv.vals j) ∧
      fg2.flags 1 0 = true := by
  rcases hscan : actionNobleList wGridC9 wValsC9 1 wSqrtC9 with _ | pv
  · have hne : (actionNobleList wGridC9 wValsC9 1 wSqrtC9).isSome = true := by
      with_unfolding_all decide
    rw [hscan] at hne
    exact Bool.noConfusion hne
  rcases hrun : action_noble wGridC9 wValsC9 1 wSqrtC9 wFgC9 with _ | fg2
  · have hne : (action_noble wGridC9 wValsC9 1 wSqrtC9 wFgC9).isSome = true := by
      with_unfolding_all decide
    rw [hrun] at hne
    exact Bool.noConfusion hne
  obtain ⟨h1, h2, h3⟩ := noble_amended wGridC9 wValsC9 1 wSqrtC9 wFgC9 fg2 pv rfl rfl
    hscan hrun
  refine ⟨pv, fg2, rfl, rfl, h1, ?_⟩
  have hlist : (actionNobleList wGridC9 wValsC9 1 wSqrtC9).map nobleFlagPositions =
      some [(1, 0)] := by with_unfolding_all decide
  rw [hscan] at hlist
  have hlist2 := Option.some.inj hlist
  have hmem : ((1 : ℤ), (0 : ℤ)) ∈ nobleFlagPositions pv := by
    rw [hlist2]
    exact List.mem_singleton.mpr rfl
  exact h2 ((1 : ℤ), (0 : ℤ)) hmem

end CurseOfRust
